import Mathlib

/-!
Verification of the BigQueryORM declarative query compiler: a shallow
embedding of `buildWhereClause` (src/utils.ts), `buildSelectQuery` and
`nestAssociations` (src/model.ts), together with theorems about the
compiled SQL statements and the reconstructed object graphs.
-/

namespace BQOrm

/-- A JavaScript value as it can appear inside a `where` filter tree:
scalars (null, undefined, number, string, boolean), arrays and plain
objects (ordered key/value entry lists, as `Object.entries` exposes them). -/
inductive WhereVal where
  | wnull : WhereVal
  | undefv : WhereVal
  | wint (n : Int) : WhereVal
  | wstr (s : String) : WhereVal
  | wbool (b : Bool) : WhereVal
  | arr (elems : List WhereVal) : WhereVal
  | obj (entries : List (String × WhereVal)) : WhereVal
deriving Repr

/-- JavaScript truthiness test (`!where` in the source). -/
def jsFalsy : WhereVal → Bool
  | .wnull => true
  | .undefv => true
  | .wint n => n == 0
  | .wstr s => s == ""
  | .wbool b => !b
  | _ => false

/-- `Object.entries` on an array: index keys paired with the elements. -/
def enumEntries (xs : List WhereVal) : List (String × WhereVal) :=
  xs.enum.map (fun p => (Nat.repr p.1, p.2))

/-- The parameter bindings record (`Record<string, any>`), kept in JS
property insertion order. -/
abbrev Params := List (String × WhereVal)

/-- JS property assignment `m[k] = v`: replace in place if the key exists,
append otherwise. -/
def jsSet {κ α : Type} [DecidableEq κ] (m : List (κ × α)) (k : κ) (v : α) :
    List (κ × α) :=
  if m.any (fun p => decide (p.1 = k)) then
    m.map (fun p => if p.1 = k then (k, v) else p)
  else m ++ [(k, v)]

/-- JS property read `m[k]`, `none` when the key is absent. -/
def jsGet {κ α : Type} [DecidableEq κ] (m : List (κ × α)) (k : κ) : Option α :=
  (m.find? (fun p => decide (p.1 = k))).map Prod.snd

/-- `Object.assign(target, src)` / object spread: assign every property of
`src` onto `target` in order. -/
def assignAll (target src : Params) : Params :=
  src.foldl (fun m p => jsSet m p.1 p.2) target

/-- The fixed operator table of src/op.ts (`Op`). -/
def opTable : String → Option String
  | "eq" => some "="
  | "ne" => some "!="
  | "gt" => some ">"
  | "gte" => some ">="
  | "lt" => some "<"
  | "lte" => some "<="
  | "like" => some "LIKE"
  | "notLike" => some "NOT LIKE"
  | "in" => some "IN"
  | "notIn" => some "NOT IN"
  | "between" => some "BETWEEN"
  | "notBetween" => some "NOT BETWEEN"
  | "is" => some "IS"
  | "isNot" => some "IS NOT"
  | "and" => some "AND"
  | "or" => some "OR"
  | "not" => some "NOT"
  | "any" => some "ANY"
  | "all" => some "ALL"
  | "contains" => some "@>"
  | "contained" => some "<@"
  | _ => none

mutual

/-- Structural weight of a filter value, used as the recursion measure of
the compiler (keys do not count, so array reindexing preserves it). -/
def wsize : WhereVal → Nat
  | .arr xs => 1 + wsizeList xs
  | .obj es => 1 + wsizeEntries es
  | _ => 1

def wsizeList : List WhereVal → Nat
  | [] => 0
  | t :: ts => 1 + wsize t + wsizeList ts

def wsizeEntries : List (String × WhereVal) → Nat
  | [] => 0
  | e :: es => 1 + wsize e.2 + wsizeEntries es

end

theorem wsize_pos (w : WhereVal) : 1 ≤ wsize w := by
  cases w <;> simp [wsize]

theorem wsizeEntries_enumAux (xs : List WhereVal) :
    ∀ k, wsizeEntries (List.map (fun p => (Nat.repr p.1, p.2)) (xs.enumFrom k)) =
      wsizeList xs := by
  induction xs with
  | nil => intro k; rfl
  | cons x xs ih =>
    intro k
    simp only [List.enumFrom, List.map, wsizeEntries, wsizeList, ih]

theorem wsizeEntries_enumEntries (xs : List WhereVal) :
    wsizeEntries (enumEntries xs) = wsizeList xs := by
  simpa [enumEntries, List.enum] using wsizeEntries_enumAux xs 0

/-- The parameter-name generation for an IN list (`value.map(...)`):
returns the `@name` references, the extended bindings and the next index. -/
def bwcInParams (elems : List WhereVal) (localParams : Params)
    (paramIndex : Nat) : List String × Params × Nat :=
  match elems with
  | [] => ([], localParams, paramIndex)
  | v :: rest =>
    let paramName := "param" ++ Nat.repr paramIndex
    let (names, lp, idx) := bwcInParams rest (jsSet localParams paramName v) (paramIndex + 1)
    (("@" ++ paramName) :: names, lp, idx)

/-- The result record of `buildWhereClause`:
`{ clause, params, nextIndex }`. -/
structure BuiltWhere where
  clause : String
  params : Params
  nextIndex : Nat
deriving Repr

/-- The accumulator of the combinator `reduce` in `buildWhereClause`:
`{ clauseAcc, paramsAcc, indexAcc }`. -/
structure FoldAcc where
  clauseAcc : List String
  paramsAcc : Params
  indexAcc : Nat
deriving Repr

mutual

/-- Embedding of `buildWhereClause` from src/utils.ts: compiles a filter
tree to a parameterized SQL boolean expression.  The `params` argument
mirrors the source's second parameter, which the body never reads.
A combinator key whose value is not an array raises the JS `TypeError`
from calling `.reduce` on it. -/
def buildWhereClause (w : WhereVal) (params : Params) (paramIndex : Nat) :
    Except String BuiltWhere :=
  if jsFalsy w then .ok ⟨"", [], paramIndex⟩
  else
    match w with
    | .obj es => bwcEntries es [] [] paramIndex
    | .arr xs => bwcEntries (enumEntries xs) [] [] paramIndex
    | _ => .ok ⟨"", [], paramIndex⟩
termination_by 2 * wsize w
decreasing_by
  all_goals simp only [wsize, wsizeEntries_enumEntries]
  all_goals omega

/-- The entry loop of `buildWhereClause` (`for (const [key, value] of
Object.entries(where))`), threading `clauses`, `localParams` and
`paramIndex`. -/
def bwcEntries (es : List (String × WhereVal)) (clauses : List String)
    (localParams : Params) (paramIndex : Nat) : Except String BuiltWhere :=
  match es with
  | [] => .ok ⟨String.intercalate " AND " clauses, localParams, paramIndex⟩
  | (key, value) :: rest =>
    if key = "and" ∨ key = "or" then
      match value with
      | .arr subs => do
        let subResults ← bwcFold subs ⟨[], [], paramIndex⟩
        bwcEntries rest
          (clauses ++
            [String.intercalate (" " ++ ((opTable key).getD "undefined") ++ " ")
              subResults.clauseAcc])
          (assignAll localParams subResults.paramsAcc) subResults.indexAcc
      | _ => .error "TypeError: value.reduce is not a function"
    else
      match value with
      | .arr elems =>
        let (names, localParams2, idx2) := bwcInParams elems localParams paramIndex
        bwcEntries rest
          (clauses ++ ["`" ++ key ++ "` IN (" ++ String.intercalate ", " names ++ ")"])
          localParams2 idx2
      | .obj opEntries =>
        let (sqlOp, opVal) :=
          match opEntries with
          | [] => ("=", WhereVal.undefv)
          | (opKey, v) :: _ => ((opTable opKey).getD "=", v)
        let paramName := "param" ++ Nat.repr paramIndex
        bwcEntries rest
          (clauses ++ ["`" ++ key ++ "` " ++ sqlOp ++ " @" ++ paramName])
          (jsSet localParams paramName opVal) (paramIndex + 1)
      | _ =>
        let paramName := "param" ++ Nat.repr paramIndex
        bwcEntries rest
          (clauses ++ ["`" ++ key ++ "` = @" ++ paramName])
          (jsSet localParams paramName value) (paramIndex + 1)
termination_by 2 * wsizeEntries es + 1
decreasing_by
  all_goals simp only [wsizeEntries, wsize]
  all_goals omega

/-- The `reduce` of a combinator node: compiles each child, parenthesizes
its clause, and accumulates the bindings and the running parameter index. -/
def bwcFold (subs : List WhereVal) (acc : FoldAcc) : Except String FoldAcc :=
  match subs with
  | [] => .ok acc
  | sub :: rest => do
    let built ← buildWhereClause sub acc.paramsAcc acc.indexAcc
    bwcFold rest
      ⟨acc.clauseAcc ++ ["(" ++ built.clause ++ ")"],
        assignAll acc.paramsAcc built.params, built.nextIndex⟩
termination_by 2 * wsizeList subs + 2
decreasing_by
  all_goals simp only [wsizeList]
  all_goals omega

end

/-- The backtick character used to delimit SQL identifiers. -/
def btick : Char := Char.ofNat 96

/-- Embedding of the global regex replace
`clause.replace(/(backtick)([^(backtick)]+)(backtick)/g, "(backtick)as(backtick).$1")`
used on line 395 of src/model.ts, as a left-to-right scanner.  The first
argument is `none` outside a potential match and `some acc` after an
opening delimiter, with the identifier characters seen so far reversed in
`acc`.  A completed match (nonempty run between two delimiters) is
rewritten to the delimited alias, a dot, and the run WITHOUT its
delimiters; a failed start (empty run or unclosed delimiter) is emitted
verbatim, matching the regex engine's advance-by-one behavior. -/
def replaceTicks (asName : String) : Option (List Char) → List Char → List Char
  | none, [] => []
  | some acc, [] => btick :: acc.reverse
  | none, c :: cs =>
    if c = btick then replaceTicks asName (some []) cs
    else c :: replaceTicks asName none cs
  | some acc, c :: cs =>
    if c = btick then
      if acc.isEmpty then btick :: replaceTicks asName (some []) cs
      else (btick :: asName.data) ++ (btick :: '.' :: acc.reverse) ++ replaceTicks asName none cs
    else replaceTicks asName (some (c :: acc)) cs

/-- `prefixedClause` construction of src/model.ts line 395. -/
def prefixAlias (clause : String) (asName : String) : String :=
  ⟨replaceTicks asName none clause.data⟩

/-- The statically known data of one model class that query building
reads: `name`, `tableName`, `primaryKey` and the attribute names in
declaration order. -/
structure ModelRef where
  name : String
  tableName : String
  primaryKey : String
  attributes : List String
deriving Repr, DecidableEq

/-- The four association kinds of src/model.ts. -/
inductive AssocType where
  | belongsTo | hasOne | hasMany | belongsToMany
deriving Repr, DecidableEq

/-- An entry of a model's association registry. -/
structure Association where
  type : AssocType
  target : ModelRef
  foreignKey : String
  otherKey : Option String := none
  as : Option String := none
  through : Option ModelRef := none
deriving Repr, DecidableEq

/-- An include descriptor (`IncludeOptions`). -/
structure IncludeOptions where
  model : ModelRef
  as : Option String := none
  whereFilter : Option WhereVal := none
  required : Bool := false
  attributes : Option (List String) := none
deriving Repr

/-- The options record of `findAll`/`buildSelectQuery` (`FindOptions`). -/
structure FindOptions where
  attributes : Option (List String) := none
  whereFilter : Option WhereVal := none
  includes : Option (List IncludeOptions) := none
  order : Option (List (String × String)) := none
  group : Option (List String) := none
  limit : Option Int := none
  offset : Option Int := none
  raw : Bool := false
deriving Repr

/-- A host model: its own static data plus its association registry
(`Record<string, Association>`, in insertion order). -/
structure ModelDef where
  name : String
  tableName : String
  primaryKey : String
  attributes : List String
  associations : List (String × Association)
deriving Repr

/-- JS truthiness of an optional number (`if (options.limit)`):
`undefined` and `0` are falsy. -/
def jsNumTruthy : Option Int → Bool
  | none => false
  | some n => !(n = 0 : Bool)

/-- JS falsiness of an optional string (`!assoc.otherKey`): `undefined`
and the empty string are falsy. -/
def jsStrFalsy : Option String → Bool
  | none => true
  | some s => (s = "" : Bool)

/-- The include loop of `buildSelectQuery` (src/model.ts lines 365-400):
resolves each include against the association registry, appends the join
clauses to `sql`, and collects alias-qualified include filters. -/
def processIncludes (dataset : String) (m : ModelDef) (incs : List IncludeOptions)
    (sql : String) (whereClauses : List String) (params : Params) :
    Except String (String × List String × Params) :=
  match incs with
  | [] => .ok (sql, whereClauses, params)
  | inc :: rest =>
    let mainAlias := m.tableName
    let asName := inc.as.getD inc.model.tableName
    match (m.associations.map Prod.snd).find?
        (fun a => decide (a.as = some asName ∧ a.target = inc.model)) with
    | none => .error ("Association not found for " ++ inc.model.name)
    | some assoc => do
      let joinType := if inc.required then "INNER JOIN" else "LEFT OUTER JOIN"
      let sql2 ←
        match assoc.type with
        | .belongsTo =>
          let joinOn := "`" ++ mainAlias ++ "`.`" ++ assoc.foreignKey ++ "` = `" ++
            asName ++ "`.`" ++ inc.model.primaryKey ++ "`"
          pure (sql ++ " " ++ joinType ++ " `" ++ dataset ++ "." ++ inc.model.tableName ++
            "` AS `" ++ asName ++ "` ON " ++ joinOn)
        | .hasOne =>
          let joinOn := "`" ++ mainAlias ++ "`.`" ++ m.primaryKey ++ "` = `" ++
            asName ++ "`.`" ++ assoc.foreignKey ++ "`"
          pure (sql ++ " " ++ joinType ++ " `" ++ dataset ++ "." ++ inc.model.tableName ++
            "` AS `" ++ asName ++ "` ON " ++ joinOn)
        | .hasMany =>
          let joinOn := "`" ++ mainAlias ++ "`.`" ++ m.primaryKey ++ "` = `" ++
            asName ++ "`.`" ++ assoc.foreignKey ++ "`"
          pure (sql ++ " " ++ joinType ++ " `" ++ dataset ++ "." ++ inc.model.tableName ++
            "` AS `" ++ asName ++ "` ON " ++ joinOn)
        | .belongsToMany =>
          match assoc.through, assoc.otherKey with
          | some throughModel, some otherKey =>
            if otherKey = "" then
              Except.error "Through model and otherKey required for belongsToMany"
            else
              let throughAs := asName ++ "_through"
              let throughTable := throughModel.tableName
              let sqlA := sql ++ " " ++ joinType ++ " `" ++ dataset ++ "." ++ throughTable ++
                "` AS `" ++ throughAs ++ "` ON `" ++ mainAlias ++ "`.`" ++ m.primaryKey ++
                "` = `" ++ throughAs ++ "`.`" ++ assoc.foreignKey ++ "`"
              let joinOn := "`" ++ throughAs ++ "`.`" ++ otherKey ++ "` = `" ++ asName ++
                "`.`" ++ inc.model.primaryKey ++ "`"
              pure (sqlA ++ " " ++ joinType ++ " `" ++ dataset ++ "." ++ inc.model.tableName ++
                "` AS `" ++ asName ++ "` ON " ++ joinOn)
          | _, _ => Except.error "Through model and otherKey required for belongsToMany"
      match inc.whereFilter with
      | some w => do
        let built ← buildWhereClause w [] 0
        let prefixedClause := prefixAlias built.clause asName
        processIncludes dataset m rest sql2 (whereClauses ++ [prefixedClause])
          (assignAll params built.params)
      | none => processIncludes dataset m rest sql2 whereClauses params

/-- Embedding of `buildSelectQuery` (src/model.ts lines 355-458): compiles
a find query into SQL text plus named parameter bindings. -/
def buildSelectQuery (m : ModelDef) (dataset : String) (options : FindOptions)
    (selectOverride : Option String := none) : Except String (String × Params) := do
  let mainAlias := m.tableName
  let sql0 := "FROM `" ++ dataset ++ "." ++ m.tableName ++ "` AS `" ++ mainAlias ++ "`"
  let (sql1, whereClauses, params1) ←
    match options.includes with
    | some incs => processIncludes dataset m incs sql0 [] []
    | none => pure (sql0, ([] : List String), ([] : Params))
  let (mainWhere, params2) ←
    match options.whereFilter with
    | some w => do
      let built ← buildWhereClause w [] 0
      pure (built.clause, assignAll params1 built.params)
    | none => pure ("", params1)
  let whereClause :=
    String.intercalate " AND " ((mainWhere :: whereClauses).filter (fun c => !(c = "" : Bool)))
  let sql2 := if !(whereClause = "" : Bool) then sql1 ++ " WHERE " ++ whereClause else sql1
  let selectClause : List String :=
    match selectOverride with
    | some so => [so]
    | none =>
      let mainAttributes := options.attributes.getD m.attributes
      let mainCols := mainAttributes.map
        (fun f => "`" ++ mainAlias ++ "`.`" ++ f ++ "` AS `" ++ mainAlias ++ "_" ++ f ++ "`")
      let incCols :=
        match options.includes with
        | some incs => incs.flatMap (fun inc =>
            let asName := inc.as.getD inc.model.tableName
            (inc.attributes.getD inc.model.attributes).map
              (fun f => "`" ++ asName ++ "`.`" ++ f ++ "` AS `" ++ asName ++ "_" ++ f ++ "`"))
        | none => []
      mainCols ++ incCols
  let sql3 := "SELECT " ++ String.intercalate ", " selectClause ++ " " ++ sql2
  let sql4 :=
    match options.group with
    | some gs => sql3 ++ " GROUP BY " ++ String.intercalate ", " (gs.map (fun g => "`" ++ g ++ "`"))
    | none => sql3
  let sql5 :=
    match options.order with
    | some os =>
      sql4 ++ " ORDER BY " ++ String.intercalate ", " (os.map (fun p => "`" ++ p.1 ++ "` " ++ p.2))
    | none => sql4
  let sql6 := if jsNumTruthy options.limit then
      sql5 ++ " LIMIT " ++ toString (options.limit.getD 0)
    else sql5
  let sql7 := if jsNumTruthy options.offset then
      sql6 ++ " OFFSET " ++ toString (options.offset.getD 0)
    else sql6
  pure (sql7, params2)

/-- A value in a flat result row returned by query execution. -/
inductive RVal where
  | rnull : RVal
  | rundefv : RVal
  | rint (n : Int) : RVal
  | rstr (s : String) : RVal
  | rbool (b : Bool) : RVal
deriving Repr, DecidableEq

/-- A flat result row: mapping from `"<alias>_<column>"` to value. -/
abbrev Row := List (String × RVal)

/-- JS property read on a row (`row[key]`), `undefined` when absent. -/
def rowGet (row : Row) (k : String) : RVal :=
  (jsGet row k).getD .rundefv

/-- JS loose null test (`x == null`): true for `null` and `undefined`. -/
def looseNull : RVal → Bool
  | .rnull => true
  | .rundefv => true
  | _ => false

/-- A field of a reconstructed root object: a scalar attribute, a
singleton include (null or a child object), or a hasMany/belongsToMany
include (an ordered sequence of child objects). -/
inductive PField where
  | prim (v : RVal) : PField
  | one (c : Option (List (String × RVal))) : PField
  | many (cs : List (List (String × RVal))) : PField
deriving Repr, DecidableEq

/-- A reconstructed root object. -/
abbrev ParentObj := List (String × PField)

/-- First materialization of a parent object (src/model.ts lines 482-499):
copy the root's scalar attributes from the row, then initialize every
include field found in the registry (alias-only lookup) to `[]` or `null`
by association kind. -/
def initParent (m : ModelDef) (includes : List IncludeOptions) (row : Row) : ParentObj :=
  let base := m.attributes.foldl
    (fun parent field =>
      jsSet parent field (PField.prim (rowGet row (m.tableName ++ "_" ++ field)))) []
  includes.foldl
    (fun parent inc =>
      let asName := inc.as.getD inc.model.tableName
      match (m.associations.map Prod.snd).find? (fun a => decide (a.as = some asName)) with
      | some assoc =>
        if assoc.type = .hasMany ∨ assoc.type = .belongsToMany then
          jsSet parent asName (PField.many [])
        else
          jsSet parent asName (PField.one none)
      | none => parent) base

/-- The per-row include loop (src/model.ts lines 503-525): reads the
child's primary key column, skips outer-join misses, and either appends
to the sequence when no element shares that child primary key, or
assigns the singleton field last-write-wins. -/
def attachChildren (m : ModelDef) (includes : List IncludeOptions) (row : Row)
    (parent0 : ParentObj) : ParentObj :=
  includes.foldl
    (fun parent inc =>
      let asName := inc.as.getD inc.model.tableName
      match (m.associations.map Prod.snd).find? (fun a => decide (a.as = some asName)) with
      | none => parent
      | some assoc =>
        let childPK := rowGet row (asName ++ "_" ++ inc.model.primaryKey)
        if looseNull childPK then parent
        else
          let child := inc.model.attributes.foldl
            (fun c field => jsSet c field (rowGet row (asName ++ "_" ++ field))) []
          if assoc.type = .hasMany ∨ assoc.type = .belongsToMany then
            match jsGet parent asName with
            | some (.many cs) =>
              if cs.any (fun c => decide (rowGet c inc.model.primaryKey = childPK)) then parent
              else jsSet parent asName (PField.many (cs ++ [child]))
            | _ => parent
          else jsSet parent asName (PField.one (some child))) parent0

/-- The row loop of `nestAssociations` over the insertion-ordered
`parentMap` (src/model.ts lines 476-526): rows with a null root primary
key are dropped; otherwise the parent is fetched or materialized and the
row's children are attached. -/
def nestRows (m : ModelDef) (includes : List IncludeOptions) :
    List Row → List (RVal × ParentObj) → List (RVal × ParentObj)
  | [], parentMap => parentMap
  | row :: rest, parentMap =>
    let parentPKValue := rowGet row (m.tableName ++ "_" ++ m.primaryKey)
    if looseNull parentPKValue then nestRows m includes rest parentMap
    else
      let parent :=
        match jsGet parentMap parentPKValue with
        | some p => p
        | none => initParent m includes row
      let parent2 := attachChildren m includes row parent
      nestRows m includes rest (jsSet parentMap parentPKValue parent2)

/-- Embedding of `nestAssociations` (src/model.ts lines 460-529).  With no
includes each row is returned flat with the root prefix stripped (scalar
values wrapped in `PField.prim` to give both branches one result type);
with includes the rows are regrouped by root primary key. -/
def nestAssociations (m : ModelDef) (rows : List Row)
    (includes : List IncludeOptions) : List ParentObj :=
  if includes.isEmpty then
    rows.map (fun row =>
      row.foldl
        (fun result p =>
          if (m.tableName ++ "_").isPrefixOf p.1 then
            jsSet result (p.1.drop (m.tableName ++ "_").length) (PField.prim p.2)
          else result) [])
  else
    (nestRows m includes rows []).map Prod.snd

/-! Example model definitions used by the concrete theorems. -/

/-- A target model used by the example queries. -/
def postsRef : ModelRef := ⟨"Post", "posts", "id", ["id", "title"]⟩

/-- A host model with one registered hasMany association. -/
def userModel : ModelDef := ⟨"User", "users", "id", ["id", "name"],
  [("posts", { type := .hasMany, target := postsRef, foreignKey := "userId", as := some "posts" })]⟩

/-- C6: compiling the filter tree with an and-combinator over two scalar
leaves yields exactly the SQL clause with each child parenthesized and
joined by AND in order, bindings param0 and param1 in order, and the
parameter counter threaded to 2 across the children rather than reset. -/
theorem c6_and_combinator_compilation :
    buildWhereClause (.obj [("and", .arr [.obj [("a", .wint 1)], .obj [("b", .wint 2)]])]) [] 0 =
      .ok ⟨"(`a` = @param0) AND (`b` = @param1)",
        [("param0", .wint 1), ("param1", .wint 2)], 2⟩ := by
  simp +decide [buildWhereClause, bwcEntries, bwcFold, bwcInParams, jsFalsy, enumEntries,
    assignAll, jsSet, opTable, Bind.bind, Except.bind, String.intercalate]

/-- C2: an operator leaf whose single key is not in the fixed operator
table is NOT rejected by the code; `Op[opKey] || "="` silently compiles it
to an equality comparison, contradicting the claimed InvalidOperator
failure mode. -/
theorem c2_unknown_operator_compiles_to_equality :
    opTable "bogus" = none ∧
    buildWhereClause (.obj [("col", .obj [("bogus", .wint 5)])]) [] 0 =
      .ok ⟨"`col` = @param0", [("param0", .wint 5)], 1⟩ := by
  constructor
  · rfl
  · simp +decide [buildWhereClause, bwcEntries, bwcFold, bwcInParams, jsFalsy, enumEntries,
      assignAll, jsSet, opTable, Bind.bind, Except.bind, String.intercalate]

set_option maxRecDepth 4096 in
/-- C1: compiling a root filter together with an include filter in one
statement reuses the parameter name param0 for both (each
buildWhereClause call restarts at index 0), so the emitted SQL references
@param0 in both comparisons and the bindings map retains only the root
filter's value, the include filter's value "t" having been overwritten. -/
theorem c1_param_name_collision :
    buildSelectQuery userModel "ds"
      ⟨none, some (.obj [("name", .wstr "alice")]),
        some [⟨postsRef, none, some (.obj [("title", .wstr "t")]), false, none⟩],
        none, none, none, none, false⟩ none =
      .ok ("SELECT `users`.`id` AS `users_id`, `users`.`name` AS `users_name`, " ++
        "`posts`.`id` AS `posts_id`, `posts`.`title` AS `posts_title` " ++
        "FROM `ds.users` AS `users` " ++
        "LEFT OUTER JOIN `ds.posts` AS `posts` ON `users`.`id` = `posts`.`userId` " ++
        "WHERE `name` = @param0 AND `posts`.title = @param0",
        [("param0", .wstr "alice")]) := by
  simp +decide [buildSelectQuery, processIncludes, buildWhereClause, bwcEntries, bwcFold,
    bwcInParams, jsFalsy, enumEntries, assignAll, jsSet, opTable, prefixAlias, replaceTicks,
    btick, jsNumTruthy, userModel, postsRef, Bind.bind, Except.bind, Pure.pure, Except.pure,
    String.intercalate, String.intercalate.go]

/-- C5 counterexample: an empty combinator nested inside another
combinator does not contribute a well-formed universally-true conjunct:
it compiles to the empty string, which parenthesization turns into the
malformed fragment "()" inside the emitted clause. -/
theorem c5_counterexample_nested_empty_combinator :
    buildWhereClause
      (.obj [("and", .arr [.obj [("or", .arr [])], .obj [("a", .wint 1)]])]) [] 0 =
      .ok ⟨"() AND (`a` = @param0)", [("param0", .wint 1)], 1⟩ := by
  simp +decide [buildWhereClause, bwcEntries, bwcFold, bwcInParams, jsFalsy, enumEntries,
    assignAll, jsSet, opTable, Bind.bind, Except.bind, String.intercalate]

/-- C4 counterexample: a scalar include filter compiles to a clause whose
column is delimited, but the alias-qualification rewrite replaces the
delimited column with the delimited alias, a dot, and the UNDELIMITED
column name, so the column does not remain delimited. -/
theorem c4_counterexample_column_loses_delimiters :
    buildWhereClause (.obj [("name", .wstr "x")]) [] 0 =
      .ok ⟨"`name` = @param0", [("param0", .wstr "x")], 1⟩ ∧
    prefixAlias "`name` = @param0" "users" = "`users`.name = @param0" := by
  constructor
  · simp +decide [buildWhereClause, bwcEntries, bwcFold, bwcInParams, jsFalsy, enumEntries,
      assignAll, jsSet, opTable, Bind.bind, Except.bind, String.intercalate]
  · decide

/-- C10: a caller-supplied limit of 0, and likewise an offset of 0, is
falsy in the source's truthiness test and therefore treated exactly as if
absent: the compiled statement is identical to the one built with no
limit (respectively no offset), so it contains no LIMIT (OFFSET) clause. -/
theorem c10_limit_offset_zero_treated_as_absent (m : ModelDef) (dataset : String)
    (opts : FindOptions) (sov : Option String) :
    buildSelectQuery m dataset { opts with limit := some 0 } sov =
      buildSelectQuery m dataset { opts with limit := none } sov ∧
    buildSelectQuery m dataset { opts with offset := some 0 } sov =
      buildSelectQuery m dataset { opts with offset := none } sov := by
  constructor <;> simp [buildSelectQuery, jsNumTruthy]

/-- C5 amended: an empty filter tree and a bare empty combinator node
compile to the empty clause without error, and a statement whose root
filter is an empty combinator is compiled exactly as if no root filter
had been given (the empty clause is filtered out, so no WHERE restriction
arises: universal-true at statement level).  Nested or sibling empty
combinators, by contrast, contribute the malformed fragment shown in the
counterexample rather than a well-formed universally-true conjunct. -/
theorem c5_amended_empty_combinator_universal_true :
    (∀ p : Params, buildWhereClause (.obj []) p 0 = .ok ⟨"", [], 0⟩) ∧
    (∀ p : Params, buildWhereClause (.obj [("and", .arr [])]) p 0 = .ok ⟨"", [], 0⟩) ∧
    (∀ p : Params, buildWhereClause (.obj [("or", .arr [])]) p 0 = .ok ⟨"", [], 0⟩) ∧
    ∀ (m : ModelDef) (dataset : String) (opts : FindOptions) (sov : Option String),
      opts.whereFilter = some (.obj [("and", .arr [])]) →
      buildSelectQuery m dataset opts sov =
        buildSelectQuery m dataset { opts with whereFilter := none } sov := by
  refine ⟨fun p => ?_, fun p => ?_, fun p => ?_, fun m dataset opts sov h => ?_⟩
  · simp +decide [buildWhereClause, bwcEntries, jsFalsy, String.intercalate]
  · simp +decide [buildWhereClause, bwcEntries, bwcFold, jsFalsy, opTable, assignAll,
      Bind.bind, Except.bind, String.intercalate]
  · simp +decide [buildWhereClause, bwcEntries, bwcFold, jsFalsy, opTable, assignAll,
      Bind.bind, Except.bind, String.intercalate]
  · simp +decide [buildSelectQuery, h, buildWhereClause, bwcEntries, bwcFold, jsFalsy,
      opTable, assignAll, Bind.bind, Except.bind, Pure.pure, Except.pure, String.intercalate]


/-- C5 witness at concrete inputs. -/
theorem c5_amended_witness :
    buildWhereClause (.obj [("and", .arr [])]) [] 0 = .ok ⟨"", [], 0⟩ ∧
    buildSelectQuery userModel "ds"
      ⟨none, some (.obj [("and", .arr [])]), none, none, none, none, none, false⟩ none =
      buildSelectQuery userModel "ds" ⟨none, none, none, none, none, none, none, false⟩ none := by
  refine ⟨c5_amended_empty_combinator_universal_true.2.1 [], ?_⟩
  exact c5_amended_empty_combinator_universal_true.2.2.2 userModel "ds" _ none rfl

theorem processIncludes_ok_mem (dataset : String) (m : ModelDef) :
    ∀ (incs : List IncludeOptions) (sql : String) (wcs : List String) (params : Params)
      (r : String × List String × Params),
      processIncludes dataset m incs sql wcs params = .ok r →
      ∀ inc ∈ incs, ∃ a ∈ m.associations.map Prod.snd,
        a.as = some (inc.as.getD inc.model.tableName) ∧ a.target = inc.model := by
  intro incs
  induction incs with
  | nil => intro sql wcs params r h inc hm; simp at hm
  | cons inc0 rest ih =>
    intro sql wcs params r h inc hm
    rw [processIncludes] at h
    rcases hf : (m.associations.map Prod.snd).find?
        (fun a => decide (a.as = some (inc0.as.getD inc0.model.tableName) ∧
          a.target = inc0.model)) with _ | a
    · rw [hf] at h; simp at h
    · rw [hf] at h
      simp only [bind, Except.bind] at h
      rcases List.mem_cons.mp hm with rfl | hm
      · refine ⟨a, List.mem_of_find?_eq_some hf, ?_⟩
        have := List.find?_some hf
        simpa using this
      · iterate 8 (all_goals try (split at h))
        all_goals try (exact ih _ _ _ _ h inc hm)
        all_goals simp at h

/-- C7: for every include, the association used is looked up in the host
registry by alias (the include's alias or the target's default alias) AND
target model; when no association satisfies both conditions for the first
include, query building fails synchronously with the AssociationNotFound
error before any SQL is produced, and whenever building succeeds, every
include had an association matching both conditions — it is never
inferred from key names. -/
theorem c7_association_lookup :
    (∀ (m : ModelDef) (dataset : String) (opts : FindOptions) (sov : Option String)
        (inc : IncludeOptions) (rest : List IncludeOptions),
      opts.includes = some (inc :: rest) →
      (∀ a ∈ m.associations.map Prod.snd,
        ¬(a.as = some (inc.as.getD inc.model.tableName) ∧ a.target = inc.model)) →
      buildSelectQuery m dataset opts sov =
        .error ("Association not found for " ++ inc.model.name)) ∧
    (∀ (m : ModelDef) (dataset : String) (opts : FindOptions) (sov : Option String)
        (r : String × Params),
      buildSelectQuery m dataset opts sov = .ok r →
      ∀ inc ∈ opts.includes.getD [], ∃ a ∈ m.associations.map Prod.snd,
        a.as = some (inc.as.getD inc.model.tableName) ∧ a.target = inc.model) := by
  constructor
  · intro m dataset opts sov inc rest h hno
    have hf : (m.associations.map Prod.snd).find?
        (fun a => decide (a.as = some (inc.as.getD inc.model.tableName) ∧
          a.target = inc.model)) = none := by
      rw [List.find?_eq_none]
      intro a ha
      simpa using hno a ha
    simp only [buildSelectQuery, h, processIncludes]
    rw [hf]
    simp [bind, Except.bind]
  · intro m dataset opts sov r h inc hm
    cases hi : opts.includes with
    | none => rw [hi] at hm; simp at hm
    | some incs =>
      rw [hi] at hm
      simp only [Option.getD_some] at hm
      simp only [buildSelectQuery, hi, bind, Except.bind] at h
      split at h
      · simp at h
      · rename_i v heq
        exact processIncludes_ok_mem dataset m incs _ _ _ _ heq inc hm

/-- C7 witness: an include against an empty registry fails with the
AssociationNotFound error. -/
theorem c7_association_lookup_witness :
    buildSelectQuery ⟨"User", "users", "id", ["id"], []⟩ "ds"
      ⟨none, none, some [⟨postsRef, none, none, false, none⟩], none, none, none, none, false⟩
      none = .error "Association not found for Post" := by
  rw [c7_association_lookup.1 ⟨"User", "users", "id", ["id"], []⟩ "ds" _ none
    ⟨postsRef, none, none, false, none⟩ [] rfl (by simp)]
  simp [postsRef]

/-- C8: for a belongsToMany include whose association carries a through
model and a nonempty otherKey, exactly two join clauses are emitted in
order — host.primaryKey = through.foreignKey, then through.otherKey =
target.primaryKey; when the association lacks the through model or the
otherKey, building fails synchronously with the MissingThroughModel
error instead of degrading to a single join. -/
theorem c8_belongs_to_many (dataset hN hT hPk : String) (hAttrs : List String)
    (target through : ModelRef) (asN fk okk : String) (req : Bool) (sov : String) :
    (okk ≠ "" →
      buildSelectQuery
        ⟨hN, hT, hPk, hAttrs,
          [(asN, ⟨.belongsToMany, target, fk, some okk, some asN, some through⟩)]⟩
        dataset
        ⟨none, none, some [⟨target, some asN, none, req, none⟩], none, none, none, none, false⟩
        (some sov) =
      .ok ("SELECT " ++ sov ++ " " ++
        ("FROM `" ++ dataset ++ "." ++ hT ++ "` AS `" ++ hT ++ "`" ++ " " ++
          (if req then "INNER JOIN" else "LEFT OUTER JOIN") ++ " `" ++ dataset ++ "." ++
          through.tableName ++ "` AS `" ++ (asN ++ "_through") ++ "` ON `" ++ hT ++ "`.`" ++
          hPk ++ "` = `" ++ (asN ++ "_through") ++ "`.`" ++ fk ++ "`" ++ " " ++
          (if req then "INNER JOIN" else "LEFT OUTER JOIN") ++ " `" ++ dataset ++ "." ++
          target.tableName ++ "` AS `" ++ asN ++ "` ON " ++
          ("`" ++ (asN ++ "_through") ++ "`.`" ++ okk ++ "` = `" ++ asN ++ "`.`" ++
            target.primaryKey ++ "`")), [])) ∧
    (buildSelectQuery
        ⟨hN, hT, hPk, hAttrs, [(asN, ⟨.belongsToMany, target, fk, some okk, some asN, none⟩)]⟩
        dataset
        ⟨none, none, some [⟨target, some asN, none, req, none⟩], none, none, none, none, false⟩
        (some sov) =
      .error "Through model and otherKey required for belongsToMany") ∧
    (buildSelectQuery
        ⟨hN, hT, hPk, hAttrs, [(asN, ⟨.belongsToMany, target, fk, none, some asN, some through⟩)]⟩
        dataset
        ⟨none, none, some [⟨target, some asN, none, req, none⟩], none, none, none, none, false⟩
        (some sov) =
      .error "Through model and otherKey required for belongsToMany") := by
  refine ⟨fun hok => ?_, ?_, ?_⟩
  · simp [buildSelectQuery, processIncludes, List.find?, hok, bind, Except.bind, pure,
      Except.pure, jsNumTruthy, String.intercalate, String.intercalate.go,
      String.append_assoc]
  · simp [buildSelectQuery, processIncludes, List.find?, bind, Except.bind, pure,
      Except.pure]
  · simp [buildSelectQuery, processIncludes, List.find?, bind, Except.bind, pure,
      Except.pure]

/-- C8 witness at concrete inputs: the two join clauses in order. -/
theorem c8_belongs_to_many_witness :
    buildSelectQuery
      ⟨"A", "a_t", "id", ["id"],
        [("cs", ⟨.belongsToMany, ⟨"C", "cs", "id", ["id"]⟩, "aId", some "cId", some "cs",
          some ⟨"T", "ts", "id", ["id"]⟩⟩)]⟩
      "ds"
      ⟨none, none, some [⟨⟨"C", "cs", "id", ["id"]⟩, some "cs", none, false, none⟩],
        none, none, none, none, false⟩
      (some "COUNT(1)") =
      .ok ("SELECT COUNT(1) FROM `ds.a_t` AS `a_t`" ++
        " LEFT OUTER JOIN `ds.ts` AS `cs_through` ON `a_t`.`id` = `cs_through`.`aId`" ++
        " LEFT OUTER JOIN `ds.cs` AS `cs` ON `cs_through`.`cId` = `cs`.`id`", []) := by
  rw [(c8_belongs_to_many "ds" "A" "a_t" "id" ["id"] ⟨"C", "cs", "id", ["id"]⟩
    ⟨"T", "ts", "id", ["id"]⟩ "cs" "aId" "cId" false "COUNT(1)").1 (by decide)]
  simp +decide

/-- First-occurrence deduplication of a list of key values, used to state
the reconstruction property. -/
def firstOccur : List RVal → List RVal
  | [] => []
  | x :: xs => x :: firstOccur (xs.filter (fun y => !(y = x : Bool)))
termination_by l => l.length
decreasing_by
  have := List.length_filter_le (fun y => !(y = x : Bool)) xs
  simp only [List.length_cons]
  omega

/-- A child model used by the reconstruction theorems. -/
def childRef : ModelRef := ⟨"Child", "kids", "id", ["id"]⟩

/-- A host model with one hasMany association for the reconstruction
theorems. -/
def parentModel : ModelDef := ⟨"Parent", "pars", "id", ["id"],
  [("kids", ⟨.hasMany, childRef, "parId", none, some "kids", none⟩)]⟩

/-- A flat row carrying the root primary key and a child primary key. -/
def kidRow (p c : RVal) : Row := [("pars_id", p), ("kids_id", c)]

set_option maxHeartbeats 2000000 in
/-- C9: reconstructing three flat rows that share one non-null root
primary key and carry exactly two distinct non-null child primary keys
yields exactly one root object whose hasMany include field holds exactly
two deduplicated child objects in first-occurrence order. -/
theorem c9_hasmany_dedup (p c1 c2 c3 : RVal)
    (hp : looseNull p = false) (h1 : looseNull c1 = false)
    (h2 : looseNull c2 = false) (h3 : looseNull c3 = false)
    (htwo : (c1 = c2 ∧ c1 ≠ c3) ∨ (c1 = c3 ∧ c1 ≠ c2) ∨ (c2 = c3 ∧ c1 ≠ c2)) :
    nestAssociations parentModel [kidRow p c1, kidRow p c2, kidRow p c3]
        [⟨childRef, none, none, false, none⟩] =
      [[("id", .prim p),
        ("kids", .many ((firstOccur [c1, c2, c3]).map (fun c => [("id", c)])))]] ∧
    (firstOccur [c1, c2, c3]).length = 2 := by
  rcases htwo with ⟨rfl, hne⟩ | ⟨rfl, hne⟩ | ⟨rfl, hne⟩ <;>
    constructor <;>
      simp +decide [nestAssociations, nestRows, initParent, attachChildren, rowGet, jsGet,
        jsSet, firstOccur, parentModel, childRef, kidRow, hp, h1, h2, h3,
        hne, Ne.symm hne]

/-- C9 witness at concrete inputs: rows (1,10), (1,20), (1,10)
reconstruct to one root with children 10 and 20 in order. -/
theorem c9_hasmany_dedup_witness :
    nestAssociations parentModel
        [kidRow (.rint 1) (.rint 10), kidRow (.rint 1) (.rint 20), kidRow (.rint 1) (.rint 10)]
        [⟨childRef, none, none, false, none⟩] =
      [[("id", .prim (.rint 1)),
        ("kids", .many ((firstOccur [.rint 10, .rint 20, .rint 10]).map
          (fun c => [("id", c)])))]] ∧
    (firstOccur [RVal.rint 10, .rint 20, .rint 10]).length = 2 :=
  c9_hasmany_dedup (.rint 1) (.rint 10) (.rint 20) (.rint 10) rfl rfl rfl rfl
    (Or.inr (Or.inl (by decide)))


def natDigits (n : Nat) : List Char :=
  if h : n / 10 = 0 then [Nat.digitChar n]
  else natDigits (n / 10) ++ [Nat.digitChar (n % 10)]
termination_by n
decreasing_by
  have h10 : n ≥ 10 := by
    by_contra hc
    exact h (Nat.div_eq_of_lt (by omega))
  exact Nat.div_lt_self (by omega) (by omega)

theorem toDigitsCore_eq_natDigits :
    ∀ (fuel n : Nat) (ds : List Char), n < fuel →
      Nat.toDigitsCore 10 fuel n ds = natDigits n ++ ds := by
  intro fuel
  induction fuel with
  | zero => intro n ds h; omega
  | succ f ih =>
    intro n ds h
    rw [Nat.toDigitsCore]
    by_cases h0 : n / 10 = 0
    · have hmod : n % 10 = n := Nat.mod_eq_of_lt (by omega)
      simp only [h0, if_true, hmod]
      conv_rhs => rw [natDigits]
      rw [dif_pos h0]
      simp
    · simp only [h0, if_false]
      rw [ih (n / 10) _ (by omega)]
      conv_rhs => rw [natDigits]
      rw [dif_neg h0]
      simp

def digitsVal (l : List Char) : Nat := l.foldl (fun a c => 10 * a + (c.toNat - 48)) 0

theorem digitsVal_go (l : List Char) (c : Char) :
    ∀ a, (l ++ [c]).foldl (fun a c => 10 * a + (c.toNat - 48)) a =
      10 * (l.foldl (fun a c => 10 * a + (c.toNat - 48)) a) + (c.toNat - 48) := by
  intro a
  rw [List.foldl_append]
  rfl

theorem digitChar_val (m : Nat) (h : m < 10) : (Nat.digitChar m).toNat - 48 = m := by
  interval_cases m <;> decide

theorem digitsVal_natDigits : ∀ n, digitsVal (natDigits n) = n := by
  intro n
  induction n using Nat.strong_induction_on with
  | _ n ih =>
    by_cases h0 : n / 10 = 0
    · rw [natDigits, dif_pos h0]
      have hn : n < 10 := by omega
      simp [digitsVal, digitChar_val n hn]
    · rw [natDigits, dif_neg h0]
      have hlt : n / 10 < n := Nat.div_lt_self (by omega) (by omega)
      have := ih (n / 10) hlt
      simp only [digitsVal] at this ⊢
      rw [digitsVal_go, this, digitChar_val (n % 10) (Nat.mod_lt n (by omega))]
      omega

theorem natRepr_inj : ∀ m n : Nat, Nat.repr m = Nat.repr n → m = n := by
  intro m n h
  have hm : Nat.repr m = (natDigits m).asString := by
    rw [Nat.repr, Nat.toDigits, toDigitsCore_eq_natDigits (m + 1) m [] (by omega)]
    simp
  have hn : Nat.repr n = (natDigits n).asString := by
    rw [Nat.repr, Nat.toDigits, toDigitsCore_eq_natDigits (n + 1) n [] (by omega)]
    simp
  rw [hm, hn] at h
  have hd : natDigits m = natDigits n := by
    have := congrArg String.data h
    simpa [List.asString] using this
  calc m = digitsVal (natDigits m) := (digitsVal_natDigits m).symm
    _ = digitsVal (natDigits n) := by rw [hd]
    _ = n := digitsVal_natDigits n

/-- The synthetic parameter name for index `i`. -/
def pname (i : Nat) : String := "param" ++ Nat.repr i

theorem pname_inj {i j : Nat} (h : pname i = pname j) : i = j := by
  have hd := congrArg String.data h
  simp only [pname, String.data_append] at hd
  have hcancel := List.append_cancel_left hd
  have : Nat.repr i = Nat.repr j := by
    cases hri : Nat.repr i with
    | mk di =>
      cases hrj : Nat.repr j with
      | mk dj =>
        rw [hri, hrj] at hcancel
        simp at hcancel
        rw [hcancel]
  exact natRepr_inj i j this

theorem pname_injective : Function.Injective pname := fun _ _ h => pname_inj h

/-- The keys of a bindings record. -/
def keysOf (lp : Params) : List String := lp.map Prod.fst

/-- The parameter names for indices `i0, i0+1, ..., i0+c-1`. -/
def pnames (i0 c : Nat) : List String := (List.range' i0 c).map pname

theorem mem_pnames {k : String} {i0 c : Nat} :
    k ∈ pnames i0 c ↔ ∃ j, i0 ≤ j ∧ j < i0 + c ∧ k = pname j := by
  simp only [pnames, List.mem_map, List.mem_range']
  constructor
  · rintro ⟨j, ⟨i, hi, rfl⟩, rfl⟩
    exact ⟨i0 + 1 * i, by omega, by omega, rfl⟩
  · rintro ⟨j, hj1, hj2, rfl⟩
    exact ⟨j, ⟨j - i0, by omega, by omega⟩, rfl⟩

theorem pnames_nodup (i0 c : Nat) : (pnames i0 c).Nodup := by
  have hr : (List.range' i0 c).Nodup := by
    apply List.Pairwise.imp (fun h => Nat.ne_of_lt h)
    exact List.pairwise_lt_range' i0 c 1 (by omega)
  exact hr.map pname_injective

theorem pnames_append (i0 c1 c2 : Nat) :
    pnames i0 c1 ++ pnames (i0 + c1) c2 = pnames i0 (c1 + c2) := by
  simp only [pnames, ← List.map_append, List.range'_append_1, Nat.add_comm c1 c2]

theorem jsGet_append_left {a b : Params} {k : String} {v : WhereVal}
    (h : jsGet a k = some v) : jsGet (a ++ b) k = some v := by
  induction a with
  | nil => simp [jsGet] at h
  | cons p rest ih =>
    by_cases hk : p.1 = k
    · simp [jsGet, List.find?, hk] at h ⊢
      exact h
    · simp only [jsGet, List.find?, List.cons_append] at h ⊢
      rw [decide_eq_false hk] at h ⊢
      exact ih h

theorem jsGet_append_right {a : Params} {k : String} (h : jsGet a k = none) (b : Params) :
    jsGet (a ++ b) k = jsGet b k := by
  induction a with
  | nil => simp
  | cons p rest ih =>
    by_cases hk : p.1 = k
    · simp [jsGet, List.find?, hk] at h
    · simp only [jsGet, List.find?, List.cons_append] at h ⊢
      rw [decide_eq_false hk] at h ⊢
      exact ih h

theorem jsGet_isSome_mem {lp : Params} {k : String} (h : (jsGet lp k).isSome) :
    k ∈ keysOf lp := by
  simp only [jsGet] at h
  cases hf : lp.find? (fun p => decide (p.1 = k)) with
  | none => rw [hf] at h; simp at h
  | some p =>
    have hmem := List.mem_of_find?_eq_some hf
    have hpk := List.find?_some hf
    simp only [decide_eq_true_eq] at hpk
    rw [← hpk]
    exact List.mem_map_of_mem Prod.fst hmem

theorem jsGet_none_of_ge {lp : Params} {i0 c j : Nat}
    (hk : keysOf lp = pnames i0 c) (hj : i0 + c ≤ j) : jsGet lp (pname j) = none := by
  cases ho : jsGet lp (pname j) with
  | none => rfl
  | some v =>
    have hs : pname j ∈ keysOf lp := jsGet_isSome_mem (by rw [ho]; rfl)
    rw [hk, mem_pnames] at hs
    obtain ⟨j2, h1, h2, he⟩ := hs
    have := pname_inj he
    omega

theorem jsSet_fresh {m : Params} {k : String} (hk : k ∉ keysOf m) (v : WhereVal) :
    jsSet m k v = m ++ [(k, v)] := by
  have hany : m.any (fun p => decide (p.1 = k)) = false := by
    rw [List.any_eq_false]
    intro p hp
    simp only [decide_eq_true_eq]
    intro he
    exact hk (he ▸ List.mem_map_of_mem Prod.fst hp)
  simp [jsSet, hany]

theorem assignAll_disjoint : ∀ (src target : Params),
    (∀ k ∈ keysOf src, k ∉ keysOf target) → (keysOf src).Nodup →
    assignAll target src = target ++ src := by
  intro src
  induction src with
  | nil => intro target _ _; simp [assignAll]
  | cons p rest ih =>
    intro target hdis hnd
    simp only [keysOf, List.map_cons, List.nodup_cons] at hnd
    have hp : p.1 ∉ keysOf target := hdis p.1 (by simp [keysOf])
    have step : jsSet target p.1 p.2 = target ++ [p] := jsSet_fresh hp p.2
    simp only [assignAll, List.foldl_cons] at ih ⊢
    rw [step, ih (target ++ [p]) ?_ hnd.2]
    · simp
    · intro k hk
      have hk2 : k ∈ keysOf rest := hk
      simp only [keysOf, List.map_append, List.mem_append, List.map_singleton,
        List.mem_singleton]
      push_neg
      constructor
      · exact hdis k (by simp [keysOf]; right; simpa [keysOf] using hk2)
      · intro hc
        exact hnd.1 (hc ▸ hk2)

/-- The bindings produced for a run of consecutively numbered parameters
holding the given values. -/
def mkP : Nat → List WhereVal → Params
  | _, [] => []
  | i, v :: vs => (pname i, v) :: mkP (i + 1) vs

theorem keysOf_mkP : ∀ (vs : List WhereVal) (i : Nat),
    keysOf (mkP i vs) = pnames i vs.length := by
  intro vs
  induction vs with
  | nil => intro i; rfl
  | cons v rest ih =>
    intro i
    simp only [mkP, keysOf, List.map_cons, List.length_cons]
    rw [show pnames i (rest.length + 1) = pname i :: pnames (i + 1) rest.length from ?_]
    · simp only [List.cons.injEq, true_and]
      exact ih (i + 1)
    · simp [pnames, List.range'_succ]

theorem pname_not_mem_of_ge {lp : Params} {i0 c j : Nat}
    (hk : keysOf lp = pnames i0 c) (hj : i0 + c ≤ j) : pname j ∉ keysOf lp := by
  intro hmem
  rw [hk, mem_pnames] at hmem
  obtain ⟨j2, h1, h2, he⟩ := hmem
  have := pname_inj he
  omega

theorem mkP_get_mem : ∀ (vs : List WhereVal) (i : Nat) (v : WhereVal), v ∈ vs →
    ∃ j, i ≤ j ∧ j < i + vs.length ∧ jsGet (mkP i vs) (pname j) = some v := by
  intro vs
  induction vs with
  | nil => intro i v hv; simp at hv
  | cons w rest ih =>
    intro i v hv
    rcases List.mem_cons.mp hv with rfl | hv
    · refine ⟨i, le_refl i, by simp, ?_⟩
      simp [mkP, jsGet, List.find?]
    · obtain ⟨j, hj1, hj2, hj3⟩ := ih (i + 1) v hv
      refine ⟨j, by omega, by simpa [Nat.add_comm, Nat.add_assoc, Nat.add_left_comm] using hj2, ?_⟩
      simp only [mkP, jsGet, List.find?]
      have hne : pname i ≠ pname j := fun he => by have := pname_inj he; omega
      rw [decide_eq_false (by simpa using hne)]
      exact hj3

theorem bwcInParams_spec : ∀ (vs : List WhereVal) (lp : Params) (i i0 c : Nat),
    keysOf lp = pnames i0 c → i0 + c = i →
    bwcInParams vs lp i =
      ((List.range' i vs.length).map (fun j => "@" ++ pname j), lp ++ mkP i vs, i + vs.length) := by
  intro vs
  induction vs with
  | nil => intro lp i i0 c hk hi; simp [bwcInParams, mkP]
  | cons v rest ih =>
    intro lp i i0 c hk hi
    rw [bwcInParams]
    have hfresh : pname i ∉ keysOf lp := pname_not_mem_of_ge hk (by omega)
    have hset : jsSet lp ("param" ++ Nat.repr i) v = lp ++ [(pname i, v)] := jsSet_fresh hfresh v
    rw [hset]
    have hk2 : keysOf (lp ++ [(pname i, v)]) = pnames i0 (c + 1) := by
      rw [← pnames_append i0 c 1]
      simp only [keysOf, List.map_append, hk, List.map_singleton]
      congr 1
      simp [pnames, List.range', hi]
    rw [ih (lp ++ [(pname i, v)]) (i + 1) i0 (c + 1) hk2 (by omega)]
    simp only [List.length_cons, List.range'_succ, List.map_cons, List.append_assoc,
      List.singleton_append, mkP, Prod.mk.injEq]
    and_intros <;> first | rfl | trivial | omega

mutual

/-- The literal values a filter tree supplies to the compiler, in the
order the entry loop binds them: scalar-leaf values, operator-leaf values
(the first entry of the operator object, `undefined` when it is empty),
every element of an IN list, and recursively the combinator children. -/
def literalsOf : WhereVal → List WhereVal
  | .obj es => literalsOfEntries es
  | .arr xs => literalsOfEntries (enumEntries xs)
  | _ => []
termination_by w => 2 * wsize w
decreasing_by
  all_goals simp only [wsize, wsizeEntries_enumEntries]
  all_goals omega

def literalsOfEntries : List (String × WhereVal) → List WhereVal
  | [] => []
  | (key, value) :: rest =>
    (if key = "and" ∨ key = "or" then
      match value with
      | .arr subs => literalsOfList subs
      | _ => []
    else
      match value with
      | .arr elems => elems
      | .obj opEntries =>
        [(match opEntries with
          | [] => WhereVal.undefv
          | (_, v) :: _ => v)]
      | _ => [value]) ++ literalsOfEntries rest
termination_by es => 2 * wsizeEntries es + 1
decreasing_by
  all_goals simp only [wsizeEntries, wsize]
  all_goals omega

def literalsOfList : List WhereVal → List WhereVal
  | [] => []
  | t :: ts => literalsOf t ++ literalsOfList ts
termination_by subs => 2 * wsizeList subs + 2
decreasing_by
  all_goals simp only [wsizeList]
  all_goals omega

end

theorem literalsOf_wnull : literalsOf .wnull = [] := by rw [literalsOf.eq_def]

theorem literalsOf_undefv : literalsOf .undefv = [] := by rw [literalsOf.eq_def]

theorem literalsOf_wint (n : Int) : literalsOf (.wint n) = [] := by rw [literalsOf.eq_def]

theorem literalsOf_wstr (s : String) : literalsOf (.wstr s) = [] := by rw [literalsOf.eq_def]

theorem literalsOf_wbool (b : Bool) : literalsOf (.wbool b) = [] := by rw [literalsOf.eq_def]

theorem keysOf_append (a b : Params) : keysOf (a ++ b) = keysOf a ++ keysOf b :=
  List.map_append _ a b

theorem pnames_zero (i0 : Nat) : pnames i0 0 = [] := rfl

theorem assignAll_ranges {lp src : Params} {i0 c1 i c2 : Nat}
    (hlp : keysOf lp = pnames i0 c1) (hsrc : keysOf src = pnames i c2)
    (hle : i0 + c1 ≤ i) : assignAll lp src = lp ++ src := by
  apply assignAll_disjoint
  · intro k hk hk2
    rw [hsrc, mem_pnames] at hk
    rw [hlp, mem_pnames] at hk2
    obtain ⟨j, hj1, hj2, rfl⟩ := hk
    obtain ⟨j2, hj3, hj4, he⟩ := hk2
    have := pname_inj he
    omega
  · rw [hsrc]; exact pnames_nodup i c2

theorem bwcInvariant : ∀ N : Nat,
    (∀ w, 2 * wsize w ≤ N → ∀ params i res,
      buildWhereClause w params i = .ok res →
      i ≤ res.nextIndex ∧ keysOf res.params = pnames i (res.nextIndex - i) ∧
      ∀ v ∈ literalsOf w, ∃ j, i ≤ j ∧ j < res.nextIndex ∧
        jsGet res.params (pname j) = some v) ∧
    (∀ es, 2 * wsizeEntries es + 1 ≤ N → ∀ clauses lp i0 i res,
      keysOf lp = pnames i0 (i - i0) → i0 ≤ i →
      bwcEntries es clauses lp i = .ok res →
      i ≤ res.nextIndex ∧ keysOf res.params = pnames i0 (res.nextIndex - i0) ∧
      (∀ k v, jsGet lp k = some v → jsGet res.params k = some v) ∧
      ∀ v ∈ literalsOfEntries es, ∃ j, i ≤ j ∧ j < res.nextIndex ∧
        jsGet res.params (pname j) = some v) ∧
    (∀ subs, 2 * wsizeList subs + 2 ≤ N → ∀ cl pa i0 i res,
      keysOf pa = pnames i0 (i - i0) → i0 ≤ i →
      bwcFold subs ⟨cl, pa, i⟩ = .ok res →
      i ≤ res.indexAcc ∧ keysOf res.paramsAcc = pnames i0 (res.indexAcc - i0) ∧
      (∀ k v, jsGet pa k = some v → jsGet res.paramsAcc k = some v) ∧
      ∀ v ∈ literalsOfList subs, ∃ j, i ≤ j ∧ j < res.indexAcc ∧
        jsGet res.paramsAcc (pname j) = some v) := by
  intro N
  induction N using Nat.strong_induction_on with
  | _ N IH =>
  refine ⟨?_, ?_, ?_⟩
  · -- buildWhereClause component
    intro w hN params i res h
    cases w with
    | obj es =>
      rw [buildWhereClause] at h
      rw [if_neg (by simp [jsFalsy])] at h
      have hb : 2 * wsizeEntries es + 1 ≤ N - 1 := by
        simp only [wsize] at hN; omega
      have hN1 : N - 1 < N := by
        have := hN; simp only [wsize] at this; omega
      have := ((IH (N - 1) hN1).2.1 es hb) [] [] i i res
        (by simp [keysOf, pnames]) (le_refl i) h
      refine ⟨this.1, this.2.1, ?_⟩
      rw [literalsOf]
      exact this.2.2.2
    | arr xs =>
      rw [buildWhereClause] at h
      rw [if_neg (by simp [jsFalsy])] at h
      have hb : 2 * wsizeEntries (enumEntries xs) + 1 ≤ N - 1 := by
        rw [wsizeEntries_enumEntries]
        simp only [wsize] at hN; omega
      have hN1 : N - 1 < N := by
        have := hN; simp only [wsize] at this; omega
      have := ((IH (N - 1) hN1).2.1 (enumEntries xs) hb) [] [] i i res
        (by simp [keysOf, pnames]) (le_refl i) h
      refine ⟨this.1, this.2.1, ?_⟩
      rw [literalsOf]
      exact this.2.2.2
    | wnull =>
      rw [buildWhereClause] at h
      all_goals try (intro x hx; exact absurd hx (by simp))
      simp only [ite_self] at h
      cases h
      exact ⟨le_refl i, by simp [keysOf, pnames],
        by intro v hv; rw [literalsOf_wnull] at hv; exact absurd hv (List.not_mem_nil v)⟩
    | undefv =>
      rw [buildWhereClause] at h
      all_goals try (intro x hx; exact absurd hx (by simp))
      simp only [ite_self] at h
      cases h
      exact ⟨le_refl i, by simp [keysOf, pnames],
        by intro v hv; rw [literalsOf_undefv] at hv; exact absurd hv (List.not_mem_nil v)⟩
    | wint n =>
      rw [buildWhereClause] at h
      all_goals try (intro x hx; exact absurd hx (by simp))
      simp only [ite_self] at h
      cases h
      exact ⟨le_refl i, by simp [keysOf, pnames],
        by intro v hv; rw [literalsOf_wint] at hv; exact absurd hv (List.not_mem_nil v)⟩
    | wstr s =>
      rw [buildWhereClause] at h
      all_goals try (intro x hx; exact absurd hx (by simp))
      simp only [ite_self] at h
      cases h
      exact ⟨le_refl i, by simp [keysOf, pnames],
        by intro v hv; rw [literalsOf_wstr] at hv; exact absurd hv (List.not_mem_nil v)⟩
    | wbool b =>
      rw [buildWhereClause] at h
      all_goals try (intro x hx; exact absurd hx (by simp))
      simp only [ite_self] at h
      cases h
      exact ⟨le_refl i, by simp [keysOf, pnames],
        by intro v hv; rw [literalsOf_wbool] at hv; exact absurd hv (List.not_mem_nil v)⟩
  · -- bwcEntries component
    intro es hN clauses lp i0 i res hk hi0 h
    cases es with
    | nil =>
      rw [bwcEntries] at h
      cases h
      refine ⟨le_refl i, hk, fun k v hv => hv, ?_⟩
      intro v hv
      rw [literalsOfEntries] at hv
      exact absurd hv (List.not_mem_nil v)
    | cons e rest =>
      obtain ⟨key, value⟩ := e
      have hNrest : 2 * wsizeEntries rest + 1 ≤ N - 1 := by
        simp only [wsizeEntries] at hN
        have := wsize_pos value
        omega
      have hN1 : N - 1 < N := by
        simp only [wsizeEntries] at hN; omega
      have IHrest := (IH (N - 1) hN1).2.1 rest hNrest
      by_cases hkey : key = "and" ∨ key = "or"
      · cases value with
        | arr subs =>
          simp only [bwcEntries, if_pos hkey] at h
          simp only [bind, Except.bind] at h
          cases hfold : bwcFold subs ⟨[], [], i⟩ with
          | error e => rw [hfold] at h; exact absurd h (by simp)
          | ok sr =>
            rw [hfold] at h
            dsimp only at h
            have hbsubs : 2 * wsizeList subs + 2 ≤ N - 1 := by
              simp only [wsizeEntries, wsize] at hN; omega
            have hfoldInv := (IH (N - 1) hN1).2.2 subs hbsubs [] [] i i sr
              (by simp [keysOf, pnames]) (le_refl i) hfold
            obtain ⟨hle1, hkeys1, _, hlit1⟩ := hfoldInv
            have hassign : assignAll lp sr.paramsAcc = lp ++ sr.paramsAcc := by
              refine assignAll_ranges hk hkeys1 (by omega)
            rw [hassign] at h
            have hkeys2 : keysOf (lp ++ sr.paramsAcc) =
                pnames i0 (sr.indexAcc - i0) := by
              have hglue := pnames_append i0 (i - i0) (sr.indexAcc - i)
              rw [show i0 + (i - i0) = i from by omega] at hglue
              rw [keysOf_append, hk, hkeys1, hglue]
              congr 1
              omega
            have IHr := IHrest (clauses ++
                [String.intercalate (" " ++ ((opTable key).getD "undefined") ++ " ")
                  sr.clauseAcc])
              (lp ++ sr.paramsAcc) i0 sr.indexAcc res hkeys2 (by omega) h
            obtain ⟨hle2, hkeys3, hpres2, hlit2⟩ := IHr
            refine ⟨by omega, hkeys3, ?_, ?_⟩
            · intro k v hv
              exact hpres2 k v (jsGet_append_left hv)
            · intro v hv
              have hsplit : literalsOfEntries (("" ++ key, WhereVal.arr subs) :: rest) =
                  literalsOfList subs ++ literalsOfEntries rest := by
                simp [literalsOfEntries, hkey]
              rw [show ("" ++ key) = key from by simp] at hsplit
              rw [hsplit, List.mem_append] at hv
              rcases hv with hv | hv
              · obtain ⟨j, hj1, hj2, hj3⟩ := hlit1 v hv
                refine ⟨j, by omega, by omega, ?_⟩
                apply hpres2
                have hnone : jsGet lp (pname j) = none :=
                  jsGet_none_of_ge hk (by omega)
                rw [jsGet_append_right hnone]
                exact hj3
              · obtain ⟨j, hj1, hj2, hj3⟩ := hlit2 v hv
                exact ⟨j, by omega, by omega, hj3⟩
        | wnull => simp only [bwcEntries, if_pos hkey] at h; exact absurd h (by simp)
        | undefv => simp only [bwcEntries, if_pos hkey] at h; exact absurd h (by simp)
        | wint n => simp only [bwcEntries, if_pos hkey] at h; exact absurd h (by simp)
        | wstr s => simp only [bwcEntries, if_pos hkey] at h; exact absurd h (by simp)
        | wbool b => simp only [bwcEntries, if_pos hkey] at h; exact absurd h (by simp)
        | obj oes =>
          cases oes with
          | nil => simp only [bwcEntries, if_pos hkey] at h; exact absurd h (by simp)
          | cons p0 oes2 =>
            obtain ⟨k0, v0⟩ := p0
            simp only [bwcEntries, if_pos hkey] at h
            exact absurd h (by simp)
      · have hstep : ∀ (lit : WhereVal) (clauses2 : List String),
            bwcEntries rest clauses2 (jsSet lp ("param" ++ Nat.repr i) lit) (i + 1) = .ok res →
            i ≤ res.nextIndex ∧ keysOf res.params = pnames i0 (res.nextIndex - i0) ∧
            (∀ k v, jsGet lp k = some v → jsGet res.params k = some v) ∧
            ((∃ j, i ≤ j ∧ j < res.nextIndex ∧ jsGet res.params (pname j) = some lit) ∧
              ∀ v ∈ literalsOfEntries rest, ∃ j, i ≤ j ∧ j < res.nextIndex ∧
                jsGet res.params (pname j) = some v) := by
          intro lit clauses2 h2
          have hfresh : pname i ∉ keysOf lp := pname_not_mem_of_ge hk (by omega)
          have hset : jsSet lp ("param" ++ Nat.repr i) lit = lp ++ [(pname i, lit)] :=
            jsSet_fresh hfresh lit
          rw [hset] at h2
          have hkeys2 : keysOf (lp ++ [(pname i, lit)]) = pnames i0 (i + 1 - i0) := by
            have h1 : keysOf [(pname i, lit)] = pnames i 1 := by
              simp [keysOf, pnames, List.range']
            have hglue := pnames_append i0 (i - i0) 1
            rw [show i0 + (i - i0) = i from by omega] at hglue
            rw [keysOf_append, hk, h1, hglue]
            congr 1
            omega
          have IHr := IHrest clauses2 (lp ++ [(pname i, lit)]) i0 (i + 1) res
            hkeys2 (by omega) h2
          obtain ⟨hle2, hkeys3, hpres2, hlit2⟩ := IHr
          refine ⟨by omega, hkeys3, ?_, ?_, ?_⟩
          · intro k v hv
            exact hpres2 k v (jsGet_append_left hv)
          · refine ⟨i, le_refl i, by omega, ?_⟩
            apply hpres2
            have hnone : jsGet lp (pname i) = none := jsGet_none_of_ge hk (by omega)
            rw [jsGet_append_right hnone]
            simp [jsGet, List.find?]
          · intro v hv
            obtain ⟨j, hj1, hj2, hj3⟩ := hlit2 v hv
            exact ⟨j, by omega, hj2, hj3⟩
        cases value with
        | arr elems =>
          simp only [bwcEntries, if_neg hkey] at h
          have hspec := bwcInParams_spec elems lp i i0 (i - i0) hk (by omega)
          rw [hspec] at h
          have hkeys2 : keysOf (lp ++ mkP i elems) =
              pnames i0 (i + elems.length - i0) := by
            have hglue := pnames_append i0 (i - i0) elems.length
            rw [show i0 + (i - i0) = i from by omega] at hglue
            rw [keysOf_append, hk, keysOf_mkP, hglue]
            congr 1
            omega
          have IHr := IHrest _ (lp ++ mkP i elems) i0 (i + elems.length) res
            hkeys2 (by omega) h
          obtain ⟨hle2, hkeys3, hpres2, hlit2⟩ := IHr
          refine ⟨by omega, hkeys3, ?_, ?_⟩
          · intro k v hv
            exact hpres2 k v (jsGet_append_left hv)
          · intro v hv
            have hsplit : literalsOfEntries ((key, WhereVal.arr elems) :: rest) =
                elems ++ literalsOfEntries rest := by
              simp [literalsOfEntries, hkey]
            rw [hsplit, List.mem_append] at hv
            rcases hv with hv | hv
            · obtain ⟨j, hj1, hj2, hj3⟩ := mkP_get_mem elems i v hv
              refine ⟨j, hj1, by omega, ?_⟩
              apply hpres2
              have hnone : jsGet lp (pname j) = none := jsGet_none_of_ge hk (by omega)
              rw [jsGet_append_right hnone]
              exact hj3
            · obtain ⟨j, hj1, hj2, hj3⟩ := hlit2 v hv
              exact ⟨j, by omega, hj2, hj3⟩
        | obj oes =>
          cases oes with
          | nil =>
            simp only [bwcEntries, if_neg hkey] at h
            have := hstep WhereVal.undefv _ h
            obtain ⟨h1, h2, h3, h4, h5⟩ := this
            refine ⟨h1, h2, h3, ?_⟩
            intro v hv
            simp only [literalsOfEntries, hkey, if_false, List.mem_append,
              List.mem_singleton] at hv
            rcases hv with rfl | hv
            · exact h4
            · exact h5 v hv
          | cons p0 oes2 =>
            obtain ⟨k0, v0⟩ := p0
            simp only [bwcEntries, if_neg hkey] at h
            have := hstep v0 _ h
            obtain ⟨h1, h2, h3, h4, h5⟩ := this
            refine ⟨h1, h2, h3, ?_⟩
            intro v hv
            simp only [literalsOfEntries, hkey, if_false, List.mem_append,
              List.mem_singleton] at hv
            rcases hv with rfl | hv
            · exact h4
            · exact h5 v hv
        | wnull =>
          simp only [bwcEntries, if_neg hkey] at h
          obtain ⟨h1, h2, h3, h4, h5⟩ := hstep WhereVal.wnull _ h
          refine ⟨h1, h2, h3, ?_⟩
          intro v hv
          simp only [literalsOfEntries, hkey, if_false, List.mem_append,
            List.mem_singleton] at hv
          rcases hv with rfl | hv
          · exact h4
          · exact h5 v hv
        | undefv =>
          simp only [bwcEntries, if_neg hkey] at h
          obtain ⟨h1, h2, h3, h4, h5⟩ := hstep WhereVal.undefv _ h
          refine ⟨h1, h2, h3, ?_⟩
          intro v hv
          simp only [literalsOfEntries, hkey, if_false, List.mem_append,
            List.mem_singleton] at hv
          rcases hv with rfl | hv
          · exact h4
          · exact h5 v hv
        | wint n =>
          simp only [bwcEntries, if_neg hkey] at h
          obtain ⟨h1, h2, h3, h4, h5⟩ := hstep (WhereVal.wint n) _ h
          refine ⟨h1, h2, h3, ?_⟩
          intro v hv
          simp only [literalsOfEntries, hkey, if_false, List.mem_append,
            List.mem_singleton] at hv
          rcases hv with rfl | hv
          · exact h4
          · exact h5 v hv
        | wstr s =>
          simp only [bwcEntries, if_neg hkey] at h
          obtain ⟨h1, h2, h3, h4, h5⟩ := hstep (WhereVal.wstr s) _ h
          refine ⟨h1, h2, h3, ?_⟩
          intro v hv
          simp only [literalsOfEntries, hkey, if_false, List.mem_append,
            List.mem_singleton] at hv
          rcases hv with rfl | hv
          · exact h4
          · exact h5 v hv
        | wbool b =>
          simp only [bwcEntries, if_neg hkey] at h
          obtain ⟨h1, h2, h3, h4, h5⟩ := hstep (WhereVal.wbool b) _ h
          refine ⟨h1, h2, h3, ?_⟩
          intro v hv
          simp only [literalsOfEntries, hkey, if_false, List.mem_append,
            List.mem_singleton] at hv
          rcases hv with rfl | hv
          · exact h4
          · exact h5 v hv
  · -- bwcFold component
    intro subs hN cl pa i0 i res hk hi0 h
    cases subs with
    | nil =>
      rw [bwcFold] at h
      cases h
      refine ⟨le_refl i, hk, fun k v hv => hv, ?_⟩
      intro v hv
      rw [literalsOfList] at hv
      exact absurd hv (List.not_mem_nil v)
    | cons sub rest =>
      rw [bwcFold] at h
      simp only [bind, Except.bind] at h
      cases hsub : buildWhereClause sub pa i with
      | error e => rw [hsub] at h; exact absurd h (by simp)
      | ok br =>
        rw [hsub] at h
        dsimp only at h
        have hN1 : N - 1 < N := by
          simp only [wsizeList] at hN; omega
        have hbsub : 2 * wsize sub ≤ N - 1 := by
          simp only [wsizeList] at hN; omega
        have hbwcInv := (IH (N - 1) hN1).1 sub hbsub pa i br hsub
        obtain ⟨hle1, hkeys1, hlit1⟩ := hbwcInv
        have hassign : assignAll pa br.params = pa ++ br.params :=
          assignAll_ranges hk hkeys1 (by omega)
        rw [hassign] at h
        have hkeys2 : keysOf (pa ++ br.params) = pnames i0 (br.nextIndex - i0) := by
          have hglue := pnames_append i0 (i - i0) (br.nextIndex - i)
          rw [show i0 + (i - i0) = i from by omega] at hglue
          rw [keysOf_append, hk, hkeys1, hglue]
          congr 1
          omega
        have hbrest : 2 * wsizeList rest + 2 ≤ N - 1 := by
          simp only [wsizeList] at hN
          have := wsize_pos sub
          omega
        have IHfold := (IH (N - 1) hN1).2.2 rest hbrest
          (cl ++ ["(" ++ br.clause ++ ")"]) (pa ++ br.params) i0 br.nextIndex res
          hkeys2 (by omega) h
        obtain ⟨hle2, hkeys3, hpres2, hlit2⟩ := IHfold
        refine ⟨by omega, hkeys3, ?_, ?_⟩
        · intro k v hv
          exact hpres2 k v (jsGet_append_left hv)
        · intro v hv
          simp only [literalsOfList, List.mem_append] at hv
          rcases hv with hv | hv
          · obtain ⟨j, hj1, hj2, hj3⟩ := hlit1 v hv
            refine ⟨j, by omega, by omega, ?_⟩
            apply hpres2
            have hnone : jsGet pa (pname j) = none := jsGet_none_of_ge hk (by omega)
            rw [jsGet_append_right hnone]
            exact hj3
          · obtain ⟨j, hj1, hj2, hj3⟩ := hlit2 v hv
            exact ⟨j, by omega, hj2, hj3⟩

/-- A scalar (non-array, non-object) JS value. -/
def isScalar : WhereVal → Bool
  | .arr _ => false
  | .obj _ => false
  | _ => true

theorem natDigits_digits : ∀ n : Nat, ∀ c ∈ natDigits n, 48 ≤ c.toNat ∧ c.toNat ≤ 57 := by
  intro n
  induction n using Nat.strong_induction_on with
  | _ n ih =>
    intro c hc
    by_cases h0 : n / 10 = 0
    · rw [natDigits, dif_pos h0] at hc
      simp only [List.mem_singleton] at hc
      subst hc
      have hn : n < 10 := by omega
      interval_cases n <;> decide
    · rw [natDigits, dif_neg h0] at hc
      rw [List.mem_append] at hc
      rcases hc with hc | hc
      · exact ih (n / 10) (Nat.div_lt_self (by omega) (by omega)) c hc
      · simp only [List.mem_singleton] at hc
        subst hc
        have hm : n % 10 < 10 := Nat.mod_lt n (by omega)
        have hd : ∀ m : Nat, m < 10 → 48 ≤ (Nat.digitChar m).toNat ∧ (Nat.digitChar m).toNat ≤ 57 := by
          intro m hmm
          interval_cases m <;> decide
        exact hd _ hm

theorem natRepr_all_digits : ∀ (j : Nat), ∀ c ∈ (Nat.repr j).data, 48 ≤ c.toNat ∧ c.toNat ≤ 57 := by
  intro j c hc
  have hm : Nat.repr j = (natDigits j).asString := by
    rw [Nat.repr, Nat.toDigits, toDigitsCore_eq_natDigits (j + 1) j [] (by omega)]
    simp
  rw [hm] at hc
  simp only [List.asString] at hc
  exact natDigits_digits j c hc

theorem natRepr_ne_and (j : Nat) : Nat.repr j ≠ "and" := by
  intro h
  have := natRepr_all_digits j 'a' (by rw [h]; decide)
  simp at this

theorem natRepr_ne_or (j : Nat) : Nat.repr j ≠ "or" := by
  intro h
  have := natRepr_all_digits j 'o' (by rw [h]; decide)
  simp at this

/-- Substitution of literal values inside the non-combinator value of one
entry: IN-list elements, the operator object's first value, or the scalar
leaf value. -/
def mapLitVal (σ : WhereVal → WhereVal) : WhereVal → WhereVal
  | .arr elems => .arr (elems.map σ)
  | .obj [] => .obj []
  | .obj ((k0, v0) :: oes) => .obj ((k0, σ v0) :: oes)
  | .wnull => σ .wnull
  | .undefv => σ .undefv
  | .wint n => σ (.wint n)
  | .wstr s => σ (.wstr s)
  | .wbool b => σ (.wbool b)

/-- Substitution applied to the elements of a top-level array, each of
which the entry loop treats as a non-combinator entry value. -/
def mapLitVals (σ : WhereVal → WhereVal) (xs : List WhereVal) : List WhereVal :=
  xs.map (mapLitVal σ)

mutual

/-- Substitution of every literal value of a filter tree through `σ`,
leaving keys, operators, arities and the tree structure unchanged. -/
def mapLit (σ : WhereVal → WhereVal) : WhereVal → WhereVal
  | .obj es => .obj (mapLitEntries σ es)
  | .arr xs => .arr (mapLitVals σ xs)
  | .wnull => .wnull
  | .undefv => .undefv
  | .wint n => .wint n
  | .wstr s => .wstr s
  | .wbool b => .wbool b
termination_by w => 2 * wsize w
decreasing_by
  all_goals simp only [wsize]
  all_goals omega

def mapLitEntries (σ : WhereVal → WhereVal) :
    List (String × WhereVal) → List (String × WhereVal)
  | [] => []
  | (key, value) :: rest =>
    (key,
      if key = "and" ∨ key = "or" then mapLitComb σ value
      else mapLitVal σ value) :: mapLitEntries σ rest
termination_by es => 2 * wsizeEntries es + 1
decreasing_by
  all_goals simp only [wsizeEntries, wsize]
  all_goals omega

/-- Substitution inside a combinator entry value: maps the children when
it is an array, and leaves the (erroneous) value unchanged otherwise. -/
def mapLitComb (σ : WhereVal → WhereVal) : WhereVal → WhereVal
  | .arr subs => .arr (mapLitList σ subs)
  | .obj oes => .obj oes
  | .wnull => .wnull
  | .undefv => .undefv
  | .wint n => .wint n
  | .wstr s => .wstr s
  | .wbool b => .wbool b
termination_by v => 2 * wsize v + 2
decreasing_by
  all_goals simp only [wsize]
  all_goals omega

def mapLitList (σ : WhereVal → WhereVal) : List WhereVal → List WhereVal
  | [] => []
  | t :: ts => mapLit σ t :: mapLitList σ ts
termination_by subs => 2 * wsizeList subs + 2
decreasing_by
  all_goals simp only [wsizeList]
  all_goals omega

end

theorem enumEntries_mapLitVals (σ : WhereVal → WhereVal) (xs : List WhereVal) :
    mapLitEntries σ (enumEntries xs) = enumEntries (mapLitVals σ xs) := by
  have haux : ∀ (ys : List WhereVal) (k : Nat),
      mapLitEntries σ (List.map (fun p => (Nat.repr p.1, p.2)) (ys.enumFrom k)) =
        List.map (fun p => (Nat.repr p.1, p.2)) ((mapLitVals σ ys).enumFrom k) := by
    intro ys
    induction ys with
    | nil => intro k; simp [mapLitEntries, mapLitVals]
    | cons y ys ih =>
      intro k
      simp only [List.enumFrom, List.map, mapLitVals, mapLitEntries]
      rw [if_neg (by
        push_neg
        exact ⟨natRepr_ne_and k, natRepr_ne_or k⟩)]
      refine congrArg (fun l => _ :: l) ?_
      simpa [mapLitVals] using ih (k + 1)
  simpa [enumEntries, List.enum] using haux xs 0

/-- The value-independent part of a compile result: the SQL text and the
next parameter index. -/
def outPart (r : BuiltWhere) : String × Nat := (r.clause, r.nextIndex)

/-- The value-independent part of a combinator fold accumulator. -/
def foldPart (a : FoldAcc) : List String × Nat := (a.clauseAcc, a.indexAcc)

theorem bwc_scalar : ∀ (w : WhereVal), isScalar w = true →
    ∀ (p : Params) (i : Nat), buildWhereClause w p i = .ok ⟨"", [], i⟩ := by
  intro w hs p i
  cases w with
  | obj es => simp [isScalar] at hs
  | arr xs => simp [isScalar] at hs
  | wnull =>
    rw [buildWhereClause]
    all_goals try (intro x hx; exact absurd hx (by simp))
    simp
  | undefv =>
    rw [buildWhereClause]
    all_goals try (intro x hx; exact absurd hx (by simp))
    simp
  | wint n =>
    rw [buildWhereClause]
    all_goals try (intro x hx; exact absurd hx (by simp))
    simp
  | wstr s =>
    rw [buildWhereClause]
    all_goals try (intro x hx; exact absurd hx (by simp))
    simp
  | wbool b =>
    rw [buildWhereClause]
    all_goals try (intro x hx; exact absurd hx (by simp))
    simp

theorem bwcInParams_parts : ∀ (elems : List WhereVal) (lp : Params) (i : Nat),
    ∃ lp2, bwcInParams elems lp i =
      ((List.range' i elems.length).map (fun j => "@" ++ pname j), lp2, i + elems.length) := by
  intro elems
  induction elems with
  | nil => intro lp i; exact ⟨lp, by simp [bwcInParams]⟩
  | cons v rest ih =>
    intro lp i
    obtain ⟨lp2, he⟩ := ih (jsSet lp ("param" ++ Nat.repr i) v) (i + 1)
    refine ⟨lp2, ?_⟩
    rw [bwcInParams, he]
    simp only [List.length_cons, List.range'_succ, List.map_cons, Prod.mk.injEq]
    and_intros <;> first | rfl | trivial | omega


theorem bwcValueIndep (σ : WhereVal → WhereVal)
    (hσ : ∀ u, isScalar u = true → isScalar (σ u) = true) : ∀ N : Nat,
    (∀ w, 2 * wsize w ≤ N → ∀ p p2 i,
      Except.map outPart (buildWhereClause (mapLit σ w) p2 i) =
        Except.map outPart (buildWhereClause w p i)) ∧
    (∀ es, 2 * wsizeEntries es + 1 ≤ N → ∀ cl lp lp2 i,
      Except.map outPart (bwcEntries (mapLitEntries σ es) cl lp2 i) =
        Except.map outPart (bwcEntries es cl lp i)) ∧
    (∀ subs, 2 * wsizeList subs + 2 ≤ N → ∀ cl pa pa2 i,
      Except.map foldPart (bwcFold (mapLitList σ subs) ⟨cl, pa2, i⟩) =
        Except.map foldPart (bwcFold subs ⟨cl, pa, i⟩)) := by
  intro N
  induction N using Nat.strong_induction_on with
  | _ N IH =>
  refine ⟨?_, ?_, ?_⟩
  · -- buildWhereClause component
    intro w hN p p2 i
    cases w with
    | obj es =>
      rw [mapLit]
      rw [buildWhereClause, if_neg (by simp [jsFalsy])]
      rw [buildWhereClause, if_neg (by simp [jsFalsy])]
      have hN1 : N - 1 < N := by simp only [wsize] at hN; omega
      exact (IH (N - 1) hN1).2.1 es (by simp only [wsize] at hN; omega) [] [] [] i
    | arr xs =>
      rw [mapLit]
      rw [buildWhereClause, if_neg (by simp [jsFalsy])]
      rw [buildWhereClause, if_neg (by simp [jsFalsy])]
      rw [← enumEntries_mapLitVals]
      have hN1 : N - 1 < N := by simp only [wsize] at hN; omega
      exact (IH (N - 1) hN1).2.1 (enumEntries xs)
        (by rw [wsizeEntries_enumEntries]; simp only [wsize] at hN; omega) [] [] [] i
    | wnull => rw [mapLit, bwc_scalar .wnull rfl p2 i, bwc_scalar .wnull rfl p i]
    | undefv => rw [mapLit, bwc_scalar .undefv rfl p2 i, bwc_scalar .undefv rfl p i]
    | wint n => rw [mapLit, bwc_scalar (.wint n) rfl p2 i, bwc_scalar (.wint n) rfl p i]
    | wstr s => rw [mapLit, bwc_scalar (.wstr s) rfl p2 i, bwc_scalar (.wstr s) rfl p i]
    | wbool b => rw [mapLit, bwc_scalar (.wbool b) rfl p2 i, bwc_scalar (.wbool b) rfl p i]
  · -- bwcEntries component
    intro es hN cl lp lp2 i
    cases es with
    | nil =>
      simp [mapLitEntries, bwcEntries, Except.map, outPart]
    | cons e rest =>
      obtain ⟨key, value⟩ := e
      have hN1 : N - 1 < N := by simp only [wsizeEntries] at hN; omega
      have hNrest : 2 * wsizeEntries rest + 1 ≤ N - 1 := by
        simp only [wsizeEntries] at hN
        have := wsize_pos value
        omega
      have IHrest := (IH (N - 1) hN1).2.1 rest hNrest
      rw [mapLitEntries]
      by_cases hkey : key = "and" ∨ key = "or"
      · rw [if_pos hkey]
        cases value with
        | arr subs =>
          rw [mapLitComb]
          simp only [bwcEntries, if_pos hkey]
          simp only [bind, Except.bind]
          have hNsubs : 2 * wsizeList subs + 2 ≤ N - 1 := by
            simp only [wsizeEntries, wsize] at hN; omega
          have hC := (IH (N - 1) hN1).2.2 subs hNsubs [] [] [] i
          cases hf : bwcFold subs ⟨[], [], i⟩ with
          | error e =>
            rw [hf] at hC
            cases hf2 : bwcFold (mapLitList σ subs) ⟨[], [], i⟩ with
            | error e2 =>
              rw [hf2] at hC
              simp only [Except.map] at hC
              cases hC
              rfl
            | ok sr2 =>
              rw [hf2] at hC
              simp [Except.map] at hC
          | ok sr =>
            rw [hf] at hC
            cases hf2 : bwcFold (mapLitList σ subs) ⟨[], [], i⟩ with
            | error e2 =>
              rw [hf2] at hC
              simp [Except.map] at hC
            | ok sr2 =>
              rw [hf2] at hC
              simp only [Except.map, Except.ok.injEq] at hC
              have hcl : sr2.clauseAcc = sr.clauseAcc := congrArg Prod.fst hC
              have hix : sr2.indexAcc = sr.indexAcc := congrArg Prod.snd hC
              dsimp only
              rw [hcl, hix]
              exact IHrest _ (assignAll lp sr.paramsAcc) (assignAll lp2 sr2.paramsAcc)
                sr.indexAcc
        | obj oes =>
          rw [mapLitComb]
          cases oes with
          | nil =>
            simp only [bwcEntries, if_pos hkey]
          | cons p0 oes2 =>
            obtain ⟨k0, v0⟩ := p0
            simp only [bwcEntries, if_pos hkey]
        | wnull =>
          rw [mapLitComb]
          simp only [bwcEntries, if_pos hkey]
        | undefv =>
          rw [mapLitComb]
          simp only [bwcEntries, if_pos hkey]
        | wint n =>
          rw [mapLitComb]
          simp only [bwcEntries, if_pos hkey]
        | wstr s =>
          rw [mapLitComb]
          simp only [bwcEntries, if_pos hkey]
        | wbool b =>
          rw [mapLitComb]
          simp only [bwcEntries, if_pos hkey]
      · rw [if_neg hkey]
        cases value with
        | arr elems =>
          rw [mapLitVal]
          simp only [bwcEntries, if_neg hkey]
          obtain ⟨lpa, ha⟩ := bwcInParams_parts (elems.map σ) lp2 i
          obtain ⟨lpb, hb⟩ := bwcInParams_parts elems lp i
          rw [ha, hb]
          simp only [List.length_map]
          exact IHrest _ lpb lpa (i + elems.length)
        | obj oes =>
          cases oes with
          | nil =>
            rw [mapLitVal]
            simp only [bwcEntries, if_neg hkey]
            exact IHrest _ _ _ (i + 1)
          | cons p0 oes2 =>
            obtain ⟨k0, v0⟩ := p0
            rw [mapLitVal]
            simp only [bwcEntries, if_neg hkey]
            exact IHrest _ _ _ (i + 1)
        | wnull =>
          rw [mapLitVal]
          have hsc := hσ .wnull rfl
          cases hsv : σ .wnull with
          | arr a => rw [hsv] at hsc; simp [isScalar] at hsc
          | obj a => rw [hsv] at hsc; simp [isScalar] at hsc
          | wnull =>
            simp only [bwcEntries, if_neg hkey]
            exact IHrest _ _ _ (i + 1)
          | undefv =>
            simp only [bwcEntries, if_neg hkey]
            exact IHrest _ _ _ (i + 1)
          | wint m =>
            simp only [bwcEntries, if_neg hkey]
            exact IHrest _ _ _ (i + 1)
          | wstr t =>
            simp only [bwcEntries, if_neg hkey]
            exact IHrest _ _ _ (i + 1)
          | wbool c =>
            simp only [bwcEntries, if_neg hkey]
            exact IHrest _ _ _ (i + 1)
        | undefv =>
          rw [mapLitVal]
          have hsc := hσ .undefv rfl
          cases hsv : σ .undefv with
          | arr a => rw [hsv] at hsc; simp [isScalar] at hsc
          | obj a => rw [hsv] at hsc; simp [isScalar] at hsc
          | wnull =>
            simp only [bwcEntries, if_neg hkey]
            exact IHrest _ _ _ (i + 1)
          | undefv =>
            simp only [bwcEntries, if_neg hkey]
            exact IHrest _ _ _ (i + 1)
          | wint m =>
            simp only [bwcEntries, if_neg hkey]
            exact IHrest _ _ _ (i + 1)
          | wstr t =>
            simp only [bwcEntries, if_neg hkey]
            exact IHrest _ _ _ (i + 1)
          | wbool c =>
            simp only [bwcEntries, if_neg hkey]
            exact IHrest _ _ _ (i + 1)
        | wint n =>
          rw [mapLitVal]
          have hsc := hσ (.wint n) rfl
          cases hsv : σ (.wint n) with
          | arr a => rw [hsv] at hsc; simp [isScalar] at hsc
          | obj a => rw [hsv] at hsc; simp [isScalar] at hsc
          | wnull =>
            simp only [bwcEntries, if_neg hkey]
            exact IHrest _ _ _ (i + 1)
          | undefv =>
            simp only [bwcEntries, if_neg hkey]
            exact IHrest _ _ _ (i + 1)
          | wint m =>
            simp only [bwcEntries, if_neg hkey]
            exact IHrest _ _ _ (i + 1)
          | wstr t =>
            simp only [bwcEntries, if_neg hkey]
            exact IHrest _ _ _ (i + 1)
          | wbool c =>
            simp only [bwcEntries, if_neg hkey]
            exact IHrest _ _ _ (i + 1)
        | wstr s =>
          rw [mapLitVal]
          have hsc := hσ (.wstr s) rfl
          cases hsv : σ (.wstr s) with
          | arr a => rw [hsv] at hsc; simp [isScalar] at hsc
          | obj a => rw [hsv] at hsc; simp [isScalar] at hsc
          | wnull =>
            simp only [bwcEntries, if_neg hkey]
            exact IHrest _ _ _ (i + 1)
          | undefv =>
            simp only [bwcEntries, if_neg hkey]
            exact IHrest _ _ _ (i + 1)
          | wint m =>
            simp only [bwcEntries, if_neg hkey]
            exact IHrest _ _ _ (i + 1)
          | wstr t =>
            simp only [bwcEntries, if_neg hkey]
            exact IHrest _ _ _ (i + 1)
          | wbool c =>
            simp only [bwcEntries, if_neg hkey]
            exact IHrest _ _ _ (i + 1)
        | wbool b =>
          rw [mapLitVal]
          have hsc := hσ (.wbool b) rfl
          cases hsv : σ (.wbool b) with
          | arr a => rw [hsv] at hsc; simp [isScalar] at hsc
          | obj a => rw [hsv] at hsc; simp [isScalar] at hsc
          | wnull =>
            simp only [bwcEntries, if_neg hkey]
            exact IHrest _ _ _ (i + 1)
          | undefv =>
            simp only [bwcEntries, if_neg hkey]
            exact IHrest _ _ _ (i + 1)
          | wint m =>
            simp only [bwcEntries, if_neg hkey]
            exact IHrest _ _ _ (i + 1)
          | wstr t =>
            simp only [bwcEntries, if_neg hkey]
            exact IHrest _ _ _ (i + 1)
          | wbool c =>
            simp only [bwcEntries, if_neg hkey]
            exact IHrest _ _ _ (i + 1)
  · -- bwcFold component
    intro subs hN cl pa pa2 i
    cases subs with
    | nil =>
      simp [mapLitList, bwcFold, Except.map, foldPart]
    | cons sub rest =>
      rw [mapLitList]
      rw [bwcFold, bwcFold]
      simp only [bind, Except.bind]
      have hN1 : N - 1 < N := by simp only [wsizeList] at hN; omega
      have hNsub : 2 * wsize sub ≤ N - 1 := by simp only [wsizeList] at hN; omega
      have hNrest : 2 * wsizeList rest + 2 ≤ N - 1 := by
        simp only [wsizeList] at hN
        have := wsize_pos sub
        omega
      have hA := (IH (N - 1) hN1).1 sub hNsub pa pa2 i
      cases hb : buildWhereClause sub pa i with
      | error e =>
        rw [hb] at hA
        cases hb2 : buildWhereClause (mapLit σ sub) pa2 i with
        | error e2 =>
          rw [hb2] at hA
          simp only [Except.map] at hA
          cases hA
          rfl
        | ok br2 =>
          rw [hb2] at hA
          simp [Except.map] at hA
      | ok br =>
        rw [hb] at hA
        cases hb2 : buildWhereClause (mapLit σ sub) pa2 i with
        | error e2 =>
          rw [hb2] at hA
          simp [Except.map] at hA
        | ok br2 =>
          rw [hb2] at hA
          simp only [Except.map, Except.ok.injEq] at hA
          have hcl : br2.clause = br.clause := congrArg Prod.fst hA
          have hix : br2.nextIndex = br.nextIndex := congrArg Prod.snd hA
          dsimp only
          rw [hcl, hix]
          exact (IH (N - 1) hN1).2.2 rest hNrest _ (assignAll pa br.params)
            (assignAll pa2 br2.params) br.nextIndex


/-- C3: injection safety of the predicate compiler.  Whenever compilation
succeeds, (a) every literal value the caller supplied in the filter tree
appears as a value of the returned bindings map under some parameter
name, and (b) the emitted SQL clause and the parameter numbering are
invariant under arbitrary substitution of the supplied literal values, so
no literal is ever inlined as text into the clause — every comparison
references only a parameter placeholder. -/
theorem c3_injection_safety :
    ∀ (w : WhereVal) (params : Params) (i : Nat) (res : BuiltWhere),
      buildWhereClause w params i = .ok res →
      (∀ v ∈ literalsOf w, ∃ name, jsGet res.params name = some v) ∧
      ∀ (σ : WhereVal → WhereVal), (∀ u, isScalar u = true → isScalar (σ u) = true) →
        ∀ params2 : Params,
          Except.map outPart (buildWhereClause (mapLit σ w) params2 i) =
            Except.map outPart (buildWhereClause w params i) := by
  intro w params i res h
  constructor
  · intro v hv
    obtain ⟨_, _, hl⟩ := (bwcInvariant (2 * wsize w)).1 w (le_refl _) params i res h
    obtain ⟨j, _, _, hj⟩ := hl v hv
    exact ⟨pname j, hj⟩
  · intro σ hσ params2
    exact (bwcValueIndep σ hσ (2 * wsize w)).1 w (le_refl _) params params2 i

/-- C3 witness at a concrete input. -/
theorem c3_injection_safety_witness :
    buildWhereClause (.obj [("a", .wint 1)]) [] 0 =
      .ok ⟨"`a` = @param0", [("param0", .wint 1)], 1⟩ ∧
    ((∀ v ∈ literalsOf (.obj [("a", .wint 1)]), ∃ name,
        jsGet (BuiltWhere.params ⟨"`a` = @param0", [("param0", .wint 1)], 1⟩) name = some v) ∧
      ∀ (σ : WhereVal → WhereVal), (∀ u, isScalar u = true → isScalar (σ u) = true) →
        ∀ params2 : Params,
          Except.map outPart (buildWhereClause (mapLit σ (.obj [("a", .wint 1)])) params2 0) =
            Except.map outPart (buildWhereClause (.obj [("a", .wint 1)]) [] 0)) := by
  have hok : buildWhereClause (.obj [("a", .wint 1)]) [] 0 =
      .ok ⟨"`a` = @param0", [("param0", .wint 1)], 1⟩ := by
    simp +decide [buildWhereClause, bwcEntries, jsFalsy, jsSet, String.intercalate,
      String.intercalate.go]
  exact ⟨hok, c3_injection_safety _ [] 0 _ hok⟩

theorem rt_no_tick (asName : String) : ∀ (cs : List Char), btick ∉ cs →
    replaceTicks asName none cs = cs := by
  intro cs
  induction cs with
  | nil => intro _; rfl
  | cons c rest ih =>
    intro hmem
    rw [replaceTicks, if_neg (by intro hc; exact hmem (hc ▸ List.mem_cons_self c rest))]
    rw [ih (fun hm => hmem (List.mem_cons_of_mem c hm))]

theorem rt_scan (asName : String) : ∀ (inner : List Char), inner ≠ [] → btick ∉ inner →
    ∀ (acc tail : List Char),
    replaceTicks asName (some acc) (inner ++ btick :: tail) =
      (btick :: asName.data) ++ (btick :: '.' :: (acc.reverse ++ inner)) ++
        replaceTicks asName none tail := by
  intro inner
  induction inner with
  | nil => intro hne; exact absurd rfl hne
  | cons x rest ih =>
    intro _ hmem acc tail
    have hx : ¬x = btick := fun hc => hmem (hc ▸ List.mem_cons_self x rest)
    rw [List.cons_append, replaceTicks, if_neg hx]
    cases hrest : rest with
    | nil =>
      rw [List.nil_append]
      rw [replaceTicks, if_pos rfl, if_neg (by simp)]
      simp
    | cons y rest2 =>
      rw [← hrest]
      have hrne : rest ≠ [] := by rw [hrest]; simp
      rw [ih hrne (fun hm => hmem (List.mem_cons_of_mem x hm)) (x :: acc) tail]
      simp

/-- C4 amended: the identifiers buildSelectQuery itself emits are
backtick-delimited — the FROM table and alias, the alias-qualified select
columns, and for every association type the join table, its alias and
both ON-clause columns (conjuncts 1-5, generic over all names); but the
alias-qualification of an include filter rewrites each delimited column
to the delimited alias, a dot, and the column WITHOUT its delimiters:
for a scalar include filter on a backtick-free column, the qualified
clause carries the alias delimited and the column undelimited
(conjuncts 6-7). -/
theorem c4_amended_alias_qualification
    (dataset nm tbl pk anm fk asName okk col sVal sql : String)
    (attrs : List String) (tgt thr : ModelRef) (ws : List String) (ps : Params)
    (hok : okk ≠ "")
    (hand : col ≠ "and") (hor : col ≠ "or") (hne : col ≠ "")
    (htick : btick ∉ col.data) :
    buildSelectQuery ⟨nm, tbl, pk, attrs, []⟩ dataset
        ⟨none, none, none, none, none, none, none, false⟩ none =
      .ok ("SELECT " ++
        String.intercalate ", " (attrs.map (fun f =>
          "`" ++ tbl ++ "`.`" ++ f ++ "` AS `" ++ tbl ++ "_" ++ f ++ "`")) ++
        " " ++ ("FROM `" ++ dataset ++ "." ++ tbl ++ "` AS `" ++ tbl ++ "`"), []) ∧
    processIncludes dataset ⟨nm, tbl, pk, attrs,
        [(anm, ⟨.hasMany, tgt, fk, none, some asName, none⟩)]⟩
        [⟨tgt, some asName, none, false, none⟩] sql ws ps =
      .ok (sql ++ " LEFT OUTER JOIN `" ++ dataset ++ "." ++ tgt.tableName ++
        "` AS `" ++ asName ++ "` ON " ++ ("`" ++ tbl ++ "`.`" ++ pk ++ "` = `" ++
        asName ++ "`.`" ++ fk ++ "`"), ws, ps) ∧
    processIncludes dataset ⟨nm, tbl, pk, attrs,
        [(anm, ⟨.hasOne, tgt, fk, none, some asName, none⟩)]⟩
        [⟨tgt, some asName, none, false, none⟩] sql ws ps =
      .ok (sql ++ " LEFT OUTER JOIN `" ++ dataset ++ "." ++ tgt.tableName ++
        "` AS `" ++ asName ++ "` ON " ++ ("`" ++ tbl ++ "`.`" ++ pk ++ "` = `" ++
        asName ++ "`.`" ++ fk ++ "`"), ws, ps) ∧
    processIncludes dataset ⟨nm, tbl, pk, attrs,
        [(anm, ⟨.belongsTo, tgt, fk, none, some asName, none⟩)]⟩
        [⟨tgt, some asName, none, false, none⟩] sql ws ps =
      .ok (sql ++ " LEFT OUTER JOIN `" ++ dataset ++ "." ++ tgt.tableName ++
        "` AS `" ++ asName ++ "` ON " ++ ("`" ++ tbl ++ "`.`" ++ fk ++ "` = `" ++
        asName ++ "`.`" ++ tgt.primaryKey ++ "`"), ws, ps) ∧
    processIncludes dataset ⟨nm, tbl, pk, attrs,
        [(anm, ⟨.belongsToMany, tgt, fk, some okk, some asName, some thr⟩)]⟩
        [⟨tgt, some asName, none, false, none⟩] sql ws ps =
      .ok (sql ++ " LEFT OUTER JOIN `" ++ dataset ++ "." ++ thr.tableName ++
        "` AS `" ++ (asName ++ "_through") ++ "` ON `" ++ tbl ++ "`.`" ++ pk ++
        "` = `" ++ (asName ++ "_through") ++ "`.`" ++ fk ++ "`" ++
        " LEFT OUTER JOIN `" ++ dataset ++ "." ++ tgt.tableName ++
        "` AS `" ++ asName ++ "` ON " ++ ("`" ++ (asName ++ "_through") ++ "`.`" ++ okk ++
        "` = `" ++ asName ++ "`.`" ++ tgt.primaryKey ++ "`"), ws, ps) ∧
    buildWhereClause (.obj [(col, .wstr sVal)]) [] 0 =
      .ok ⟨"`" ++ col ++ "` = @param0", [("param0", .wstr sVal)], 1⟩ ∧
    prefixAlias ("`" ++ col ++ "` = @param0") asName =
      "`" ++ asName ++ "`." ++ col ++ " = @param0" := by
  refine ⟨?_, ?_, ?_, ?_, ?_, ?_, ?_⟩
  · simp [buildSelectQuery, jsNumTruthy, bind, Except.bind, pure, Except.pure,
      String.intercalate, String.intercalate.go, String.append_assoc]
  · simp [processIncludes, List.find?, bind, Except.bind, pure, Except.pure,
      String.append_assoc]
  · simp [processIncludes, List.find?, bind, Except.bind, pure, Except.pure,
      String.append_assoc]
  · simp [processIncludes, List.find?, bind, Except.bind, pure, Except.pure,
      String.append_assoc]
  · simp [processIncludes, List.find?, hok, bind, Except.bind, pure, Except.pure,
      String.append_assoc]
  · rw [buildWhereClause, if_neg (by simp [jsFalsy])]
    rw [bwcEntries, if_neg (by rintro (hc | hc); exacts [hand hc, hor hc])]
    all_goals try (intro x hx; exact absurd hx (by simp))
    rw [bwcEntries]
    rw [show ("param" ++ Nat.repr 0 : String) = "param0" from by decide]
    rw [show String.intercalate " AND " (([] : List String) ++ ["`" ++ col ++ "` = @" ++ "param0"]) =
      "`" ++ col ++ "` = @" ++ "param0" from by
        simp [String.intercalate, String.intercalate.go]]
    rw [String.append_assoc]
    rw [show ("` = @" ++ "param0" : String) = "` = @param0" from by decide]
    simp [jsSet]
  · apply String.ext
    have hdata : ("`" ++ col ++ "` = @param0" : String).data =
        btick :: (col.data ++ btick :: (" = @param0" : String).data) := by
      rw [String.data_append, String.data_append]
      rw [show ("`" : String).data = [btick] from by decide]
      rw [show ("` = @param0" : String).data =
        btick :: (" = @param0" : String).data from by decide]
      simp only [List.singleton_append, List.cons_append, List.nil_append]
    rw [prefixAlias, hdata]
    rw [replaceTicks, if_pos rfl]
    have hcne : col.data ≠ [] := by
      intro hc
      apply hne
      apply String.ext
      rw [hc]
    rw [rt_scan asName col.data hcne htick [] (" = @param0" : String).data]
    rw [rt_no_tick asName (" = @param0" : String).data (by decide)]
    rw [String.data_append, String.data_append, String.data_append, String.data_append]
    rw [show ("`" : String).data = [btick] from by decide]
    rw [show ("`." : String).data = [btick, '.'] from by decide]
    simp only [List.reverse_nil, List.nil_append, List.singleton_append, List.cons_append,
      List.append_assoc]

/-- C4 witness at concrete inputs. -/
theorem c4_amended_witness :
    buildSelectQuery ⟨"U", "ut", "id", ["a"], []⟩ "ds"
        ⟨none, none, none, none, none, none, none, false⟩ none =
      .ok ("SELECT " ++
        String.intercalate ", " (["a"].map (fun f =>
          "`" ++ "ut" ++ "`.`" ++ f ++ "` AS `" ++ "ut" ++ "_" ++ f ++ "`")) ++
        " " ++ ("FROM `" ++ "ds" ++ "." ++ "ut" ++ "` AS `" ++ "ut" ++ "`"), []) ∧
    processIncludes "ds" ⟨"U", "ut", "id", ["a"],
        [("k", ⟨.hasMany, ⟨"C", "ct", "cid", ["a"]⟩, "fk", none, some "users", none⟩)]⟩
        [⟨⟨"C", "ct", "cid", ["a"]⟩, some "users", none, false, none⟩] "S" [] [] =
      .ok ("S" ++ " LEFT OUTER JOIN `" ++ "ds" ++ "." ++ ("ct" : String) ++
        "` AS `" ++ "users" ++ "` ON " ++ ("`" ++ "ut" ++ "`.`" ++ "id" ++ "` = `" ++
        "users" ++ "`.`" ++ "fk" ++ "`"), [], []) ∧
    processIncludes "ds" ⟨"U", "ut", "id", ["a"],
        [("k", ⟨.hasOne, ⟨"C", "ct", "cid", ["a"]⟩, "fk", none, some "users", none⟩)]⟩
        [⟨⟨"C", "ct", "cid", ["a"]⟩, some "users", none, false, none⟩] "S" [] [] =
      .ok ("S" ++ " LEFT OUTER JOIN `" ++ "ds" ++ "." ++ ("ct" : String) ++
        "` AS `" ++ "users" ++ "` ON " ++ ("`" ++ "ut" ++ "`.`" ++ "id" ++ "` = `" ++
        "users" ++ "`.`" ++ "fk" ++ "`"), [], []) ∧
    processIncludes "ds" ⟨"U", "ut", "id", ["a"],
        [("k", ⟨.belongsTo, ⟨"C", "ct", "cid", ["a"]⟩, "fk", none, some "users", none⟩)]⟩
        [⟨⟨"C", "ct", "cid", ["a"]⟩, some "users", none, false, none⟩] "S" [] [] =
      .ok ("S" ++ " LEFT OUTER JOIN `" ++ "ds" ++ "." ++ ("ct" : String) ++
        "` AS `" ++ "users" ++ "` ON " ++ ("`" ++ "ut" ++ "`.`" ++ "fk" ++ "` = `" ++
        "users" ++ "`.`" ++ ("cid" : String) ++ "`"), [], []) ∧
    processIncludes "ds" ⟨"U", "ut", "id", ["a"],
        [("k", ⟨.belongsToMany, ⟨"C", "ct", "cid", ["a"]⟩, "fk", some "ok", some "users",
          some ⟨"T", "tt", "tid", []⟩⟩)]⟩
        [⟨⟨"C", "ct", "cid", ["a"]⟩, some "users", none, false, none⟩] "S" [] [] =
      .ok ("S" ++ " LEFT OUTER JOIN `" ++ "ds" ++ "." ++ ("tt" : String) ++
        "` AS `" ++ ("users" ++ "_through") ++ "` ON `" ++ "ut" ++ "`.`" ++ "id" ++
        "` = `" ++ ("users" ++ "_through") ++ "`.`" ++ "fk" ++ "`" ++
        " LEFT OUTER JOIN `" ++ "ds" ++ "." ++ ("ct" : String) ++
        "` AS `" ++ "users" ++ "` ON " ++ ("`" ++ ("users" ++ "_through") ++ "`.`" ++ "ok" ++
        "` = `" ++ "users" ++ "`.`" ++ ("cid" : String) ++ "`"), [], []) ∧
    buildWhereClause (.obj [("name", .wstr "x")]) [] 0 =
      .ok ⟨"`" ++ "name" ++ "` = @param0", [("param0", .wstr "x")], 1⟩ ∧
    prefixAlias ("`" ++ "name" ++ "` = @param0") "users" =
      "`" ++ "users" ++ "`." ++ "name" ++ " = @param0" :=
  c4_amended_alias_qualification "ds" "U" "ut" "id" "k" "fk" "users" "ok" "name" "x" "S"
    ["a"] ⟨"C", "ct", "cid", ["a"]⟩ ⟨"T", "tt", "tid", []⟩ [] []
    (by decide) (by decide) (by decide) (by decide) (by decide)

end BQOrm
